import Mathlib

/-!
A verification development for the pegomock mock generator (mockgen/mockgen.go).

The Go source is shallowly embedded: every emitted line of text corresponds to one
`p(...)` call of the generator, the generator's buffer is a `List String`, Go maps are
association lists, and Go's nondeterministic map iteration order is an explicit
parameter constrained to be a permutation of the map entries.  Components of the
repository that are not part of mockgen.go (the `model` package, the runtime's
invocation-parameter matrix, and the stdlib formatting pass) are modelled from the
specification and marked as such in their doc comments.
-/

/-! ## Byte-order string comparison, as used by Go's sort.Strings

Go compares strings bytewise; on UTF-8 data bytewise order coincides with
code-point lexicographic order, which is what these functions implement. -/

/-- Code-point lexicographic `≤` on character lists. -/
def goCharsLe : List Char → List Char → Bool
  | [], _ => true
  | _ :: _, [] => false
  | a :: as, b :: bs => if a = b then goCharsLe as bs else decide (a < b)

/-- Code-point lexicographic `<` on character lists. -/
def goCharsLt : List Char → List Char → Bool
  | [], [] => false
  | [], _ :: _ => true
  | _ :: _, [] => false
  | a :: as, b :: bs => if a = b then goCharsLt as bs else decide (a < b)

/-- The `≤` used by the model of `sort.Strings`. -/
def goStrLe (a b : String) : Bool := goCharsLe a.data b.data

/-- The `<` on strings, used by the import-sorting model. -/
def goStrLt (a b : String) : Bool := goCharsLt a.data b.data

theorem goCharsLe_refl : ∀ l : List Char, goCharsLe l l = true
  | [] => rfl
  | _ :: as => by simp [goCharsLe, goCharsLe_refl as]

theorem goCharsLe_total : ∀ a b : List Char, goCharsLe a b = true ∨ goCharsLe b a = true
  | [], _ => Or.inl rfl
  | _ :: _, [] => Or.inr rfl
  | a :: as, b :: bs => by
    by_cases hab : a = b
    · subst hab
      simpa [goCharsLe] using goCharsLe_total as bs
    · rcases lt_or_gt_of_ne hab with h | h
      · left; simp [goCharsLe, hab, h]
      · right; simp [goCharsLe, Ne.symm hab, h]

theorem goCharsLe_antisymm : ∀ a b : List Char,
    goCharsLe a b = true → goCharsLe b a = true → a = b
  | [], [], _, _ => rfl
  | [], _ :: _, _, h => by simp [goCharsLe] at h
  | _ :: _, [], h, _ => by simp [goCharsLe] at h
  | a :: as, b :: bs, h1, h2 => by
    by_cases hab : a = b
    · subst hab
      simp only [goCharsLe, if_pos rfl] at h1 h2
      exact congrArg (a :: ·) (goCharsLe_antisymm as bs h1 h2)
    · simp only [goCharsLe, if_neg hab, if_neg (Ne.symm hab), decide_eq_true_iff] at h1 h2
      exact absurd h2 (not_lt_of_gt h1)

theorem goCharsLe_trans : ∀ a b c : List Char,
    goCharsLe a b = true → goCharsLe b c = true → goCharsLe a c = true
  | [], _, _, _, _ => rfl
  | _ :: _, [], _, h, _ => by simp [goCharsLe] at h
  | _ :: _, _ :: _, [], _, h => by simp [goCharsLe] at h
  | a :: as, b :: bs, c :: cs, h1, h2 => by
    by_cases hab : a = b
    · subst hab
      simp only [goCharsLe, if_pos rfl] at h1
      by_cases hbc : a = c
      · subst hbc
        simp only [goCharsLe, if_pos rfl] at h2 ⊢
        exact goCharsLe_trans as bs cs h1 h2
      · simpa [goCharsLe, hbc] using h2
    · simp only [goCharsLe, if_neg hab, decide_eq_true_iff] at h1
      by_cases hbc : b = c
      · subst hbc
        simp [goCharsLe, hab, h1]
      · simp only [goCharsLe, if_neg hbc, decide_eq_true_iff] at h2
        have hac : a < c := lt_trans h1 h2
        simp [goCharsLe, ne_of_lt hac, hac]

theorem goCharsLt_trans : ∀ a b c : List Char,
    goCharsLt a b = true → goCharsLt b c = true → goCharsLt a c = true
  | [], [], _, h, _ => by simp [goCharsLt] at h
  | [], _ :: _, [], _, h => by simp [goCharsLt] at h
  | [], _ :: _, _ :: _, _, _ => rfl
  | _ :: _, [], _, h, _ => by simp [goCharsLt] at h
  | _ :: _, _ :: _, [], _, h => by simp [goCharsLt] at h
  | a :: as, b :: bs, c :: cs, h1, h2 => by
    by_cases hab : a = b
    · subst hab
      simp only [goCharsLt, if_pos rfl] at h1
      by_cases hbc : a = c
      · subst hbc
        simp only [goCharsLt, if_pos rfl] at h2 ⊢
        exact goCharsLt_trans as bs cs h1 h2
      · simpa [goCharsLt, hbc] using h2
    · simp only [goCharsLt, if_neg hab, decide_eq_true_iff] at h1
      by_cases hbc : b = c
      · subst hbc
        simp [goCharsLt, hab, h1]
      · simp only [goCharsLt, if_neg hbc, decide_eq_true_iff] at h2
        have hac : a < c := lt_trans h1 h2
        simp [goCharsLt, ne_of_lt hac, hac]

theorem goCharsLt_asymm : ∀ a b : List Char,
    goCharsLt a b = true → goCharsLt b a = true → False
  | [], [], h, _ => by simp [goCharsLt] at h
  | [], _ :: _, _, h => by simp [goCharsLt] at h
  | _ :: _, [], h, _ => by simp [goCharsLt] at h
  | a :: as, b :: bs, h1, h2 => by
    by_cases hab : a = b
    · subst hab
      simp only [goCharsLt, if_pos rfl] at h1 h2
      exact goCharsLt_asymm as bs h1 h2
    · simp only [goCharsLt, if_neg hab, if_neg (Ne.symm hab), decide_eq_true_iff] at h1 h2
      exact absurd h2 (not_lt_of_gt h1)

theorem goCharsLt_trichotomy : ∀ a b : List Char,
    goCharsLt a b = true ∨ a = b ∨ goCharsLt b a = true
  | [], [] => Or.inr (Or.inl rfl)
  | [], _ :: _ => Or.inl rfl
  | _ :: _, [] => Or.inr (Or.inr rfl)
  | a :: as, b :: bs => by
    by_cases hab : a = b
    · subst hab
      rcases goCharsLt_trichotomy as bs with h | h | h
      · left; simpa [goCharsLt]
      · right; left; rw [h]
      · right; right; simpa [goCharsLt]
    · rcases lt_or_gt_of_ne hab with h | h
      · left; simp [goCharsLt, hab, h]
      · right; right; simp [goCharsLt, Ne.symm hab, h]

theorem goStrLe_refl (a : String) : goStrLe a a = true := goCharsLe_refl a.data

theorem goStrLe_total (a b : String) : goStrLe a b = true ∨ goStrLe b a = true :=
  goCharsLe_total a.data b.data

theorem goStrLe_antisymm {a b : String} (h1 : goStrLe a b = true) (h2 : goStrLe b a = true) :
    a = b :=
  String.ext (goCharsLe_antisymm a.data b.data h1 h2)

theorem goStrLe_trans {a b c : String} (h1 : goStrLe a b = true) (h2 : goStrLe b c = true) :
    goStrLe a c = true :=
  goCharsLe_trans a.data b.data c.data h1 h2

theorem goStrLt_trans {a b c : String} (h1 : goStrLt a b = true) (h2 : goStrLt b c = true) :
    goStrLt a c = true :=
  goCharsLt_trans a.data b.data c.data h1 h2

theorem goStrLt_asymm {a b : String} (h1 : goStrLt a b = true) (h2 : goStrLt b a = true) :
    False :=
  goCharsLt_asymm a.data b.data h1 h2

theorem goStrLt_trichotomy (a b : String) :
    goStrLt a b = true ∨ a = b ∨ goStrLt b a = true := by
  rcases goCharsLt_trichotomy a.data b.data with h | h | h
  · exact Or.inl h
  · exact Or.inr (Or.inl (String.ext h))
  · exact Or.inr (Or.inr h)

/-- The relation `sort.Strings` sorts by, as a proposition. -/
def goStrLeRel (a b : String) : Prop := goStrLe a b = true

instance : DecidableRel goStrLeRel := fun a b => inferInstanceAs (Decidable (_ = true))

instance : IsTotal String goStrLeRel := ⟨goStrLe_total⟩

instance : IsTrans String goStrLeRel := ⟨fun _ _ _ => goStrLe_trans⟩

instance : IsAntisymm String goStrLeRel := ⟨fun _ _ => goStrLe_antisymm⟩

/-- Model of Go's `sort.Strings` (mockgen.go:89). Any correct sorting algorithm yields the
same list because the order is total and antisymmetric. -/
def sortStrings (l : List String) : List String := List.insertionSort goStrLeRel l

/-! ## Decimal rendering, the model of strconv.Itoa (mockgen.go:100) -/

/-- Decimal digit character. -/
def digitChar (d : Nat) : Char :=
  match d with
  | 0 => '0' | 1 => '1' | 2 => '2' | 3 => '3' | 4 => '4'
  | 5 => '5' | 6 => '6' | 7 => '7' | 8 => '8' | _ => '9'

/-- Value of a decimal digit character. -/
def digitVal (c : Char) : Nat :=
  match c with
  | '0' => 0 | '1' => 1 | '2' => 2 | '3' => 3 | '4' => 4
  | '5' => 5 | '6' => 6 | '7' => 7 | '8' => 8 | _ => 9

/-- Decimal digits of a number, most significant first; `fuel` bounds the recursion (any
fuel above the number of digits gives the same digits), keeping the function structural
so that the kernel can evaluate it. -/
def itoaCharsAux : Nat → Nat → List Char
  | 0, _ => []
  | fuel + 1, n =>
    if n < 10 then [digitChar n]
    else itoaCharsAux fuel (n / 10) ++ [digitChar (n % 10)]

/-- Decimal digits of a number, most significant first. -/
def itoaChars (n : Nat) : List Char := itoaCharsAux (n + 1) n

/-- Model of Go's `strconv.Itoa` for the non-negative arguments the generator uses. -/
def itoa (n : Nat) : String := String.mk (itoaChars n)

theorem digitVal_digitChar {d : Nat} (h : d < 10) : digitVal (digitChar d) = d := by
  interval_cases d <;> rfl

theorem itoaChars_ne_nil (n : Nat) : itoaChars n ≠ [] := by
  rw [itoaChars, itoaCharsAux]
  split <;> simp

theorem decVal_itoaCharsAux :
    ∀ fuel n, n < fuel → ∀ acc,
      List.foldl (fun acc c => acc * 10 + digitVal c) acc (itoaCharsAux fuel n) =
        acc * 10 ^ (itoaCharsAux fuel n).length + n := by
  intro fuel
  induction fuel with
  | zero => omega
  | succ f ih =>
    intro n hn acc
    rw [itoaCharsAux]
    split
    · next h =>
      simp [digitVal_digitChar h]
    · next h =>
      have h10 : 10 ≤ n := by omega
      have hd : n / 10 < f := by
        have := Nat.div_lt_self (show 0 < n by omega) (show 1 < 10 by omega)
        omega
      rw [List.foldl_append, ih (n / 10) hd acc]
      have hmod : n % 10 < 10 := Nat.mod_lt _ (by omega)
      simp only [List.foldl_cons, List.foldl_nil, List.length_append, List.length_singleton,
        digitVal_digitChar hmod]
      have hdm : n / 10 * 10 + n % 10 = n := Nat.div_add_mod n 10 ▸ by omega
      calc (acc * 10 ^ (itoaCharsAux f (n / 10)).length + n / 10) * 10 + n % 10
          = acc * (10 ^ (itoaCharsAux f (n / 10)).length * 10) + (n / 10 * 10 + n % 10) := by
            ring
        _ = acc * 10 ^ ((itoaCharsAux f (n / 10)).length + 1) + n := by rw [hdm, pow_succ]

theorem itoaChars_injective : Function.Injective itoaChars := by
  intro m n h
  have hm := decVal_itoaCharsAux (m + 1) m (by omega) 0
  have hn := decVal_itoaCharsAux (n + 1) n (by omega) 0
  rw [itoaChars, itoaChars] at h
  rw [h] at hm
  simpa [hm] using hn

theorem itoa_injective : Function.Injective itoa := by
  intro m n h
  exact itoaChars_injective (congrArg String.data h)

/-! ## Models of the Go stdlib string functions the generator uses -/

/-- Model of Go's `path.Base` (mockgen.go:91): strip trailing slashes, take the part after
the last remaining slash; empty input gives ".", an all-slash input gives "/". -/
def pathBase (p : String) : String :=
  if p = "" then "."
  else
    let stripped := (p.data.reverse.dropWhile (fun c => c = '/')).reverse
    let lastSegment := (stripped.reverse.takeWhile (fun c => c != '/')).reverse
    if lastSegment = [] then "/" else String.mk lastSegment

/-- One step of the rune loop in `sanitize` (mockgen.go:126-141): the first character must
be a letter or underscore, later ones may also be digits; anything else becomes an
underscore.  Go's unicode.IsLetter and unicode.IsDigit are modelled by their ASCII
fragments `Char.isAlpha` and `Char.isDigit`, on which they agree. -/
def sanitizeStep (t : String) (r : Char) : String :=
  if t = "" then
    if r.isAlpha || r = '_' then t.push r else t.push '_'
  else
    if r.isAlpha || r.isDigit || r = '_' then t.push r else t.push '_'

/-- Model of `sanitize` (mockgen.go:126-146). -/
def sanitize (s : String) : String :=
  let t := s.data.foldl sanitizeStep ""
  if t = "_" then "x" else t

/-- Splitting scan behind Go's `strings.Split` for a nonempty separator; `fuel` bounds the
recursion and is chosen larger than the input length. -/
def splitOnFuel (sep : List Char) : Nat → List Char → List Char → List (List Char)
  | 0, s, acc => [acc.reverse ++ s]
  | fuel + 1, s, acc =>
    if sep.isPrefixOf s then acc.reverse :: splitOnFuel sep fuel (s.drop sep.length) []
    else
      match s with
      | [] => [acc.reverse]
      | c :: rest => splitOnFuel sep fuel rest (c :: acc)

/-- Model of Go's `strings.Split` for a nonempty separator (mockgen.go:117). -/
def stringsSplit (s sep : String) : List String :=
  (splitOnFuel sep.data (s.data.length + 1) s.data []).map String.mk

/-- Model of `vendorCleaned` (mockgen.go:116-121): when the path contains "/vendor/", the
portion between the first and the second occurrence is returned (Go indexes `split[1]`),
otherwise the path itself. -/
def vendorCleaned (importPath : String) : String :=
  let split := stringsSplit importPath "/vendor/"
  if split.length > 1 then split.getD 1 "" else importPath

/-- Replacement scan behind Go's `strings.Replace` with count 1. -/
def replaceOnceFuel (pat rep : List Char) : Nat → List Char → List Char
  | 0, s => s
  | fuel + 1, s =>
    if pat.isPrefixOf s then rep ++ s.drop pat.length
    else
      match s with
      | [] => []
      | c :: rest => c :: replaceOnceFuel pat rep fuel rest

/-- Model of Go's `strings.Replace(s, pat, rep, 1)` (mockgen.go:356). -/
def stringsReplaceOnce (s pat rep : String) : String :=
  String.mk (replaceOnceFuel pat.data rep.data (s.data.length + 1) s.data)

/-- The Go keywords, the table behind `token.Lookup(name).IsKeyword()` (mockgen.go:99). -/
def goKeywords : List String :=
  ["break", "case", "chan", "const", "continue", "default", "defer", "else",
   "fallthrough", "for", "func", "go", "goto", "if", "import", "interface",
   "map", "package", "range", "return", "select", "struct", "switch", "type", "var"]

/-- Model of `token.Lookup(s).IsKeyword()`. -/
def isGoKeyword (s : String) : Bool := goKeywords.contains s

/-- Model of Go's `strings.Join(s, ", ")`, the generator's `join` (mockgen.go:445). -/
def join (s : List String) : String := String.intercalate ", " s

/-- Model of fmt's `%q` for paths without characters needing escapes. -/
def quoteStr (s : String) : String := "\"" ++ s ++ "\""

/-! ## Go maps as association lists -/

/-- Lookup in an association-list map (first matching key). -/
def mapGet : List (String × String) → String → Option String
  | [], _ => none
  | (k1, v1) :: rest, k => if k1 = k then some v1 else mapGet rest k

/-- Insert-or-replace in an association-list map, the model of Go's `m[k] = v`. -/
def mapSet : List (String × String) → String → String → List (String × String)
  | [], k, v => [(k, v)]
  | (k1, v1) :: rest, k, v =>
    if k1 = k then (k, v) :: rest else (k1, v1) :: mapSet rest k v

theorem mapGet_mapSet_self (m : List (String × String)) (k v : String) :
    mapGet (mapSet m k v) k = some v := by
  induction m with
  | nil => simp [mapSet, mapGet]
  | cons e rest ih =>
    obtain ⟨k1, v1⟩ := e
    by_cases h : k1 = k
    · simp [mapSet, mapGet, h]
    · simp [mapSet, mapGet, h, ih]

theorem mapGet_mapSet_ne (m : List (String × String)) {k k2 : String} (v : String)
    (h : k2 ≠ k) : mapGet (mapSet m k v) k2 = mapGet m k2 := by
  induction m with
  | nil => simp [mapSet, mapGet, Ne.symm h]
  | cons e rest ih =>
    obtain ⟨k1, v1⟩ := e
    by_cases h1 : k1 = k
    · subst h1
      simp [mapSet, mapGet, Ne.symm h]
    · by_cases h2 : k1 = k2
      · subst h2
        simp [mapSet, mapGet, h1]
      · simp [mapSet, mapGet, h1, h2, ih]

theorem mem_mapSet {m : List (String × String)} {k v : String} {e : String × String}
    (h : e ∈ mapSet m k v) : e ∈ m ∨ e = (k, v) := by
  induction m with
  | nil => simpa [mapSet] using h
  | cons e1 rest ih =>
    obtain ⟨k1, v1⟩ := e1
    by_cases h1 : k1 = k
    · simp only [mapSet, if_pos h1] at h
      rcases List.mem_cons.mp h with h | h
      · exact Or.inr h
      · exact Or.inl (List.mem_cons.mpr (Or.inr h))
    · simp only [mapSet, if_neg h1] at h
      rcases List.mem_cons.mp h with h | h
      · exact Or.inl (List.mem_cons.mpr (Or.inl h))
      · rcases ih h with h2 | h2
        · exact Or.inl (List.mem_cons.mpr (Or.inr h2))
        · exact Or.inr h2

theorem mapGet_mem {m : List (String × String)} {k v : String}
    (h : mapGet m k = some v) : (k, v) ∈ m := by
  induction m with
  | nil => simp [mapGet] at h
  | cons e rest ih =>
    obtain ⟨k1, v1⟩ := e
    by_cases h1 : k1 = k
    · subst h1
      simp only [mapGet, if_pos rfl, Option.some.injEq] at h
      simp only [if_true, eq_self_iff_true, Option.some.injEq] at h
      subst h
      exact List.mem_cons_self _ _
    · simp only [mapGet, if_neg h1] at h
      exact List.mem_cons.mpr (Or.inr (ih h))

/-! ## The alias resolver (generateUniquePackageNamesFor, mockgen.go:83-114) -/

/-- The runtime-support module path (mockgen.go:36). -/
def mockFrameworkImportPath : String := "github.com/petergtz/pegomock/v4"

/-- The loop condition of mockgen.go:99: a candidate is rejected while it is already used
or is a keyword. -/
def isBadName (used : List String) (s : String) : Bool := used.contains s || isGoKeyword s

/-- The sequence of candidates tried by the loop at mockgen.go:98-101: the sanitized
basename itself, then basename+"0", basename+"1", and so on. -/
def candidateName (base : String) : Nat → String
  | 0 => base
  | k + 1 => base ++ itoa k

/-- The search loop of mockgen.go:98-101, with explicit fuel. -/
def pickFrom (bad : String → Bool) (base : String) : Nat → Nat → String
  | 0, k => candidateName base k
  | fuel + 1, k =>
    if bad (candidateName base k) then pickFrom bad base fuel (k + 1)
    else candidateName base k

/-- The unique name chosen for one import path (mockgen.go:98-101); the fuel is large
enough that the loop always finds a fresh non-keyword name (see
`uniquePackageName_good`). -/
def uniquePackageName (used : List String) (base : String) : String :=
  pickFrom (isBadName used) base (used.length + goKeywords.length + 1) 0

theorem candidateName_injective (base : String) : Function.Injective (candidateName base) := by
  intro i j h
  match i, j with
  | 0, 0 => rfl
  | 0, k + 1 =>
    exfalso
    have := congrArg String.length h
    rw [candidateName, candidateName, String.length_append] at this
    have : (itoa k).length = 0 := by omega
    have hne := itoaChars_ne_nil k
    rw [itoa] at this
    simp only [String.length_mk, List.length_eq_zero] at this
    exact hne this
  | k + 1, 0 =>
    exfalso
    have := congrArg String.length h
    rw [candidateName, candidateName, String.length_append] at this
    have : (itoa k).length = 0 := by omega
    have hne := itoaChars_ne_nil k
    rw [itoa] at this
    simp only [String.length_mk, List.length_eq_zero] at this
    exact hne this
  | i + 1, j + 1 =>
    have hd := congrArg String.data h
    simp only [candidateName, String.data_append] at hd
    have := List.append_cancel_left hd
    have : itoa i = itoa j := String.ext this
    rw [itoa_injective this]

theorem exists_fresh_candidate (bad : List String) (base : String) :
    ∃ k, k < bad.length + 1 ∧ candidateName base k ∉ bad := by
  by_contra hcon
  push_neg at hcon
  have hsub : (Finset.range (bad.length + 1)).image (candidateName base) ⊆ bad.toFinset := by
    intro s hs
    simp only [Finset.mem_image, Finset.mem_range] at hs
    obtain ⟨k, hk, rfl⟩ := hs
    exact List.mem_toFinset.mpr (hcon k hk)
  have hcard := Finset.card_le_card hsub
  rw [Finset.card_image_of_injective _ (candidateName_injective base), Finset.card_range] at hcard
  have := bad.toFinset_card_le
  omega

theorem pickFrom_good (bad : String → Bool) (base : String) :
    ∀ fuel k, (∃ j, k ≤ j ∧ j < k + fuel ∧ bad (candidateName base j) = false) →
      bad (pickFrom bad base fuel k) = false := by
  intro fuel
  induction fuel with
  | zero =>
    intro k ⟨j, h1, h2, _⟩
    omega
  | succ n ih =>
    intro k ⟨j, h1, h2, h3⟩
    rw [pickFrom]
    by_cases hk : bad (candidateName base k) = true
    · rw [if_pos hk]
      apply ih
      refine ⟨j, ?_, by omega, h3⟩
      rcases Nat.eq_or_lt_of_le h1 with rfl | h
      · rw [hk] at h3; exact absurd h3 (by simp)
      · omega
    · simp only [Bool.not_eq_true] at hk
      rw [if_neg (by simp [hk])]
      exact hk

theorem uniquePackageName_good (used : List String) (base : String) :
    isBadName used (uniquePackageName used base) = false := by
  apply pickFrom_good
  obtain ⟨k, hk, hmem⟩ := exists_fresh_candidate (used ++ goKeywords) base
  refine ⟨k, by omega, by simpa using hk, ?_⟩
  simp only [List.mem_append, not_or] at hmem
  simp [isBadName, isGoKeyword, hmem.1, hmem.2]

/-- The state threaded through the loop of generateUniquePackageNamesFor. -/
structure ResolverState where
  packageMap : List (String × String)
  nonVendorPackageMap : List (String × String)
  used : List String

/-- One iteration of the loop at mockgen.go:90-112. -/
def processImportPath (st : ResolverState) (importPath : String) : ResolverState :=
  let sanitizedPackagePathBaseName := sanitize (pathBase importPath)
  let packageName0 := uniquePackageName st.used sanitizedPackagePathBaseName
  let packageName :=
    if importPath = mockFrameworkImportPath then "pegomock" else packageName0
  { packageMap := mapSet st.packageMap importPath packageName
    nonVendorPackageMap := mapSet st.nonVendorPackageMap (vendorCleaned importPath) packageName
    used := st.used ++ [packageName] }

/-- Model of `generateUniquePackageNamesFor` (mockgen.go:83-114).  The argument is the
key set of the Go `map[string]bool` (a duplicate-free list); the function sorts it and
assigns names in sorted order. -/
def generateUniquePackageNamesFor (importPaths : List String) :
    List (String × String) × List (String × String) :=
  let st := (sortStrings importPaths).foldl processImportPath ⟨[], [], []⟩
  (st.packageMap, st.nonVendorPackageMap)

/-! ## The structural model supplied by the front end

The `model` package is not part of mockgen.go, so its entities are modelled from the
specification (§3, §9). -/

/-- Modelled from the spec: the closed variant type standing in for the open set of
`model.Type` implementations (plain named type, pointer, slice, map, directional or
undirected channel, and a generic type-parameter reference).  `dir = 0` is an undirected
channel; nonzero values are the two directions. -/
inductive GoType where
  | named (pkgPath : String) (name : String)
  | pointer (elem : GoType)
  | slice (elem : GoType)
  | mapType (key : GoType) (value : GoType)
  | chanType (dir : Nat) (elem : GoType)
  | typeParamRef (name : String)
deriving DecidableEq

/-- Modelled from the spec: rendering a Type to text given the alias map and the home
module override (`model.Type.String(packageMap, pkgOverride)`); a named type whose
defining module is empty (a builtin) or equals the override is rendered unqualified. -/
def GoType.render : GoType → List (String × String) → String → String
  | .named pkgPath name, packageMap, pkgOverride =>
    if pkgPath = "" || pkgPath = pkgOverride then name
    else (mapGet packageMap pkgPath).getD pkgPath ++ "." ++ name
  | .pointer elem, pm, po => "*" ++ elem.render pm po
  | .slice elem, pm, po => "[]" ++ elem.render pm po
  | .mapType key value, pm, po => "map[" ++ key.render pm po ++ "]" ++ value.render pm po
  | .chanType dir elem, pm, po =>
    (if dir = 1 then "chan<- " else if dir = 2 then "<-chan " else "chan ") ++
      elem.render pm po
  | .typeParamRef name, _, _ => name

/-- Modelled from the spec: the module paths a Type mentions. -/
def GoType.importsOf : GoType → List String
  | .named pkgPath _ => if pkgPath = "" then [] else [pkgPath]
  | .pointer elem => elem.importsOf
  | .slice elem => elem.importsOf
  | .mapType key value => key.importsOf ++ value.importsOf
  | .chanType _ elem => elem.importsOf
  | .typeParamRef _ => []

/-- Modelled from the spec: `model.Parameter`, a possibly-empty name and a type. -/
structure Parameter where
  name : String
  type : GoType
deriving DecidableEq

/-- Modelled from the spec: `model.Method` with its fixed inputs (`In`), optional trailing
variadic parameter (`Variadic`, never also contained in `In`) and outputs (`Out`). -/
structure Method where
  name : String
  inParams : List Parameter
  variadic : Option Parameter
  out : List Parameter
deriving DecidableEq

/-- Modelled from the spec: `model.Interface`. -/
structure Interface where
  name : String
  methods : List Method
  typeParams : List Parameter
deriving DecidableEq

/-- Modelled from the spec: `model.Package` with its dot imports.  The referenced-imports
set is derived, see `Package.Imports`. -/
structure Package where
  name : String
  interfaces : List Interface
  dotImports : List String
deriving DecidableEq

def Parameter.importsOf (p : Parameter) : List String := p.type.importsOf

def Method.importsOf (m : Method) : List String :=
  (m.inParams.map Parameter.importsOf).flatten ++
    ((m.variadic.map Parameter.importsOf).getD []) ++
    (m.out.map Parameter.importsOf).flatten

def Interface.importsOf (i : Interface) : List String :=
  (i.typeParams.map Parameter.importsOf).flatten ++ (i.methods.map Method.importsOf).flatten

/-- Modelled from the spec: `model.Package.Imports()`, the duplicate-free union of the
module paths mentioned anywhere in the package's interfaces (a Go `map[string]bool`,
modelled as its duplicate-free key list). -/
def Package.Imports (pkg : Package) : List String :=
  ((pkg.interfaces.map Interface.importsOf).flatten).dedup

/-- The import-path set after mockgen.go:55 adds the runtime-support path
(`importPaths[mockFrameworkImportPath] = true`). -/
def importPathsOf (pkg : Package) : List String :=
  let ips := pkg.Imports
  if mockFrameworkImportPath ∈ ips then ips else ips ++ [mockFrameworkImportPath]

/-! ## The signature projector (argDataFor, mockgen.go:386-420) -/

/-- The four projections computed by `argDataFor`. -/
structure ArgData where
  args : List String
  argNames : List String
  argTypes : List String
  returnTypes : List GoType
deriving DecidableEq

/-- Default name synthesis of mockgen.go:396-399 (`_paramN` for unnamed parameters). -/
def argNameFor (i : Nat) (p : Parameter) : String :=
  if p.name = "" then "_param" ++ itoa i else p.name

/-- Model of `argDataFor` (mockgen.go:386-420). -/
def argDataFor (method : Method) (packageMap : List (String × String)) (pkgOverride : String) :
    ArgData :=
  let args0 := method.inParams.mapIdx
    (fun i arg => argNameFor i arg ++ " " ++ arg.type.render packageMap pkgOverride)
  let argNames0 := method.inParams.mapIdx (fun i arg => argNameFor i arg)
  let argTypes0 := method.inParams.mapIdx
    (fun _ arg => arg.type.render packageMap pkgOverride)
  let returnTypes := method.out.map Parameter.type
  match method.variadic with
  | some varg =>
    let argName := argNameFor method.inParams.length varg
    let argType := varg.type.render packageMap pkgOverride
    { args := args0 ++ [argName ++ " ..." ++ argType]
      argNames := argNames0 ++ [argName]
      argTypes := argTypes0 ++ ["[]" ++ argType]
      returnTypes := returnTypes }
  | none =>
    { args := args0, argNames := argNames0, argTypes := argTypes0, returnTypes := returnTypes }

/-- Model of `stringSliceFrom` (mockgen.go:422-428). -/
def stringSliceFrom (types : List GoType) (packageMap : List (String × String))
    (pkgOverride : String) : List String :=
  types.map (fun t => t.render packageMap pkgOverride)

/-- Model of `typeParamsStringFrom` (mockgen.go:169-184). -/
def typeParamsStringFrom (params : List Parameter) (packageMap : List (String × String))
    (pkgOverride : String) (withTypes : Bool) : String :=
  if params = [] then ""
  else
    "[" ++ String.intercalate ", "
      (params.map (fun param =>
        param.name ++ if withTypes then " " ++ param.type.render packageMap pkgOverride else ""))
      ++ "]"

/-! ## The emitters: one list element per `p(...)` call of the generator

Literal braces of the emitted Go text are written `\x7b` and `\x7d`. -/

/-- Lines of `generateMockType` (mockgen.go:186-204). -/
def generateMockTypeLines (mockTypeName typeParams typeParamNames : String) : List String :=
  ["",
   "type " ++ mockTypeName ++ typeParams ++ " struct \x7b",
   "\tfail func(message string, callerSkip ...int)",
   "\x7d",
   "",
   "func New" ++ mockTypeName ++ typeParams ++ "(options ...pegomock.Option) *" ++
     mockTypeName ++ typeParamNames ++ " \x7b",
   "\tmock := &" ++ mockTypeName ++ typeParamNames ++ "\x7b\x7d",
   "\tfor _, option := range options \x7b",
   "\t\toption.Apply(mock)",
   "\t\x7d",
   "\treturn mock",
   "\x7d",
   "",
   "func (mock *" ++ mockTypeName ++ typeParamNames ++
     ") SetFailHandler(fh pegomock.FailHandler) \x7b mock.fail = fh \x7d",
   "func (mock *" ++ mockTypeName ++ typeParamNames ++
     ") FailHandler() pegomock.FailHandler      \x7b return mock.fail \x7d",
   ""]

/-- Lines of `GenerateParamsDeclaration` (mockgen.go:308-318): a variadic method lists the
fixed argument names in the composite literal and appends each element of the variadic
slot in a range loop; a non-variadic method lists all argument names. -/
def GenerateParamsDeclarationLines (argNames : List String) (isVariadic : Bool) :
    List String :=
  if isVariadic then
    ["_params := []pegomock.Param\x7b" ++
       String.intercalate ", " (argNames.take (argNames.length - 1)) ++ "\x7d",
     "for _, param := range " ++ argNames.getD (argNames.length - 1) "" ++ " \x7b",
     "_params = append(_params, param)",
     "\x7d"]
  else
    ["_params := []pegomock.Param\x7b" ++ join argNames ++ "\x7d"]

/-- The reflected return-type descriptors of mockgen.go:214-217. -/
def reflectReturnTypesOf (returnTypes : List GoType) (packageMap : List (String × String))
    (pkgOverride : String) : List String :=
  returnTypes.map (fun returnType =>
    "reflect.TypeOf((*" ++ returnType.render packageMap pkgOverride ++ ")(nil)).Elem()")

/-- The single direct assertion line of mockgen.go:242. -/
def singleAssertionLine (packageMap : List (String × String)) (pkgOverride : String)
    (i : Nat) (returnType : GoType) : String :=
  "_ret" ++ itoa i ++ "  = _result[" ++ itoa i ++ "].(" ++
    returnType.render packageMap pkgOverride ++ ")"

/-- The per-slot assertion lines of mockgen.go:233-243: a directional channel return type
gets the two-step assertion (undirected first, then the directional type), every other
type a single direct assertion. -/
def resultAssertionLines (packageMap : List (String × String)) (pkgOverride : String)
    (i : Nat) (returnType : GoType) : List String :=
  match returnType with
  | .chanType dir elem =>
    if dir ≠ 0 then
      ["var ok bool",
       "  _ret" ++ itoa i ++ ", ok = _result[" ++ itoa i ++ "].(" ++
         (GoType.chanType 0 elem).render packageMap pkgOverride ++ ")",
       "if !ok\x7b",
       "_ret" ++ itoa i ++ " = _result[" ++ itoa i ++ "].(" ++
         (GoType.chanType dir elem).render packageMap pkgOverride ++ ")",
       "\x7d"]
    else [singleAssertionLine packageMap pkgOverride i (GoType.chanType dir elem)]
  | t => [singleAssertionLine packageMap pkgOverride i t]

/-- The result-unpacking lines of mockgen.go:224-248: one zero-valued holder per output,
then the emptiness guard, then one nil-guarded assertion block per output, then the
return statement. -/
def resultHandlingLines (packageMap : List (String × String)) (pkgOverride : String)
    (returnTypes : List GoType) : List String :=
  returnTypes.mapIdx
      (fun i returnType => "var _ret" ++ itoa i ++ " " ++ returnType.render packageMap pkgOverride)
    ++ ["if len(_result) != 0 \x7b"]
    ++ (returnTypes.mapIdx (fun i returnType =>
          ("if _result[" ++ itoa i ++ "] != nil \x7b") ::
            (resultAssertionLines packageMap pkgOverride i returnType ++ ["\x7d"]))).flatten
    ++ ["\x7d",
        "return " ++ String.intercalate ", " (returnTypes.mapIdx (fun i _ => "_ret" ++ itoa i))]

/-- Lines of `generateMockMethod` (mockgen.go:207-252). -/
def mockMethodLines (packageMap : List (String × String)) (mockType typeParamNames : String)
    (method : Method) (pkgOverride : String) : List String :=
  let ad := argDataFor method packageMap pkgOverride
  ["func (mock *" ++ mockType ++ typeParamNames ++ ") " ++ method.name ++ "(" ++
     join ad.args ++ ") (" ++ join (stringSliceFrom ad.returnTypes packageMap pkgOverride) ++
     ") \x7b",
   "if mock == nil \x7b",
   "\tpanic(\"mock must not be nil. Use myMock := New" ++ mockType ++ "().\")",
   "\x7d"]
  ++ GenerateParamsDeclarationLines ad.argNames method.variadic.isSome
  ++ [(if method.out.length > 0 then "_result :=" else "") ++
        " pegomock.GetGenericMockFrom(mock).Invoke(\"" ++ method.name ++
        "\", _params, []reflect.Type\x7b" ++
        String.intercalate ", " (reflectReturnTypesOf ad.returnTypes packageMap pkgOverride) ++
        "\x7d)"]
  ++ (if method.out.length > 0 then resultHandlingLines packageMap pkgOverride ad.returnTypes
      else [])
  ++ ["\x7d"]

/-- Lines of `generateVerifierType` (mockgen.go:254-263). -/
def generateVerifierTypeLines (interfaceName typeParams typeParamNames : String) :
    List String :=
  ["type Verifier" ++ interfaceName ++ typeParams ++ " struct \x7b",
   "\tmock *" ++ interfaceName ++ typeParamNames,
   "\tinvocationCountMatcher pegomock.InvocationCountMatcher",
   "\tinOrderContext *pegomock.InOrderContext",
   "\ttimeout time.Duration",
   "\x7d",
   ""]

/-- Lines of `generateMockVerifyMethods` (mockgen.go:265-297). -/
def generateMockVerifyMethodsLines (interfaceName typeParamNames : String) : List String :=
  ["func (mock *" ++ interfaceName ++ typeParamNames ++ ") VerifyWasCalledOnce() *Verifier" ++
     interfaceName ++ typeParamNames ++ " \x7b",
   "\treturn &Verifier" ++ interfaceName ++ typeParamNames ++ "\x7b",
   "\t\tmock: mock,",
   "\t\tinvocationCountMatcher: pegomock.Times(1),",
   "\t\x7d",
   "\x7d",
   "",
   "func (mock *" ++ interfaceName ++ typeParamNames ++
     ") VerifyWasCalled(invocationCountMatcher pegomock.InvocationCountMatcher) *Verifier" ++
     interfaceName ++ typeParamNames ++ " \x7b",
   "\treturn &Verifier" ++ interfaceName ++ typeParamNames ++ "\x7b",
   "\t\tmock: mock,",
   "\t\tinvocationCountMatcher: invocationCountMatcher,",
   "\t\x7d",
   "\x7d",
   "",
   "func (mock *" ++ interfaceName ++ typeParamNames ++
     ") VerifyWasCalledInOrder(invocationCountMatcher pegomock.InvocationCountMatcher, inOrderContext *pegomock.InOrderContext) *Verifier" ++
     interfaceName ++ typeParamNames ++ " \x7b",
   "\treturn &Verifier" ++ interfaceName ++ typeParamNames ++ "\x7b",
   "\t\tmock: mock,",
   "\t\tinvocationCountMatcher: invocationCountMatcher,",
   "\t\tinOrderContext: inOrderContext,",
   "\t\x7d",
   "\x7d",
   "",
   "func (mock *" ++ interfaceName ++ typeParamNames ++
     ") VerifyWasCalledEventually(invocationCountMatcher pegomock.InvocationCountMatcher, timeout time.Duration) *Verifier" ++
     interfaceName ++ typeParamNames ++ " \x7b",
   "\treturn &Verifier" ++ interfaceName ++ typeParamNames ++ "\x7b",
   "\t\tmock: mock,",
   "\t\tinvocationCountMatcher: invocationCountMatcher,",
   "\t\ttimeout: timeout,",
   "\t\x7d",
   "\x7d",
   ""]

/-- Lines of `generateVerifierMethod` (mockgen.go:299-306); `returnTypeString` is the
ongoing-verification type name. -/
def generateVerifierMethodLines (interfaceName typeParamNames : String) (method : Method)
    (returnTypeString : String) (args argNames : List String) : List String :=
  ["func (verifier *Verifier" ++ interfaceName ++ typeParamNames ++ ") " ++ method.name ++
     "(" ++ join args ++ ") *" ++ returnTypeString ++ typeParamNames ++ " \x7b"]
  ++ GenerateParamsDeclarationLines argNames method.variadic.isSome
  ++ ["methodInvocations := pegomock.GetGenericMockFrom(verifier.mock).Verify(verifier.inOrderContext, verifier.invocationCountMatcher, \"" ++
        method.name ++ "\", _params, verifier.timeout)",
      "return &" ++ returnTypeString ++ typeParamNames ++
        "\x7bmock: verifier.mock, methodInvocations: methodInvocations\x7d",
      "\x7d"]

/-- Lines of `generateOngoingVerificationType` (mockgen.go:320-327). -/
def generateOngoingVerificationTypeLines (interfaceName typeParams typeParamNames : String)
    (ongoingVerificationStructName : String) : List String :=
  ["type " ++ ongoingVerificationStructName ++ typeParams ++ " struct \x7b",
   "mock *" ++ interfaceName ++ typeParamNames,
   "\tmethodInvocations []pegomock.MethodInvocation",
   "\x7d",
   ""]

/-- Lines of `generateOngoingVerificationGetCapturedArguments` (mockgen.go:329-342): with
at least one parameter the body fetches the full history via GetAllCapturedArguments and
returns the last element of each per-parameter sequence; otherwise the body is empty. -/
def generateOngoingVerificationGetCapturedArgumentsLines
    (ongoingVerificationStructName : String) (argNames argTypes : List String)
    (typeParamNames : String) : List String :=
  ["func (c *" ++ ongoingVerificationStructName ++ typeParamNames ++
     ") GetCapturedArguments() (" ++ join argTypes ++ ") \x7b"]
  ++ (if argNames.length > 0 then
        [join argNames ++ " := c.GetAllCapturedArguments()",
         "return " ++ String.intercalate ", "
           (argNames.map (fun argName => argName ++ "[len(" ++ argName ++ ")-1]"))]
      else [])
  ++ ["\x7d", ""]

/-- The reconstruction block for one non-variadic position (mockgen.go:369-375). -/
def nonVariadicCaptureLines (i : Nat) (argType : String) : List String :=
  ["if len(_params) > " ++ itoa i ++ " \x7b",
   "_param" ++ itoa i ++ " = make([]" ++ argType ++ ", len(c.methodInvocations))",
   "for u, param := range _params[" ++ itoa i ++ "] \x7b",
   "_param" ++ itoa i ++ "[u]=param.(" ++ argType ++ ")",
   "\x7d",
   "\x7d"]

/-- The reconstruction block for the trailing variadic position (mockgen.go:355-366): one
inner slice per invocation, sized to the number of matrix columns at or beyond the
variadic index, filled from the non-nil cells of those columns. -/
def variadicCaptureLines (i : Nat) (argType : String) : List String :=
  let variadicBasicType := stringsReplaceOnce argType "[]" ""
  ["_param" ++ itoa i ++ " = make([]" ++ argType ++ ", len(c.methodInvocations))",
   "for u := 0; u < len(c.methodInvocations); u++ \x7b",
   "_param" ++ itoa i ++ "[u] = make([]" ++ variadicBasicType ++ ", len(_params)-" ++
     itoa i ++ ")",
   "for x := " ++ itoa i ++ "; x < len(_params); x++ \x7b",
   "if _params[x][u] != nil \x7b",
   "_param" ++ itoa i ++ "[u][x-" ++ itoa i ++ "] = _params[x][u].(" ++
     variadicBasicType ++ ")",
   "\x7d",
   "\x7d",
   "\x7d"]

/-- Lines of `generateOngoingVerificationGetAllCapturedArguments` (mockgen.go:344-384). -/
def generateOngoingVerificationGetAllCapturedArgumentsLines
    (ongoingVerificationStructName typeParamNames : String) (argTypes : List String)
    (isVariadic : Bool) : List String :=
  let numArgs := argTypes.length
  let argsAsArray := argTypes.mapIdx (fun i argType => "_param" ++ itoa i ++ " []" ++ argType)
  ["func (c *" ++ ongoingVerificationStructName ++ typeParamNames ++
     ") GetAllCapturedArguments() (" ++ String.intercalate ", " argsAsArray ++ ") \x7b"]
  ++ (if numArgs > 0 then
        ["_params := pegomock.GetGenericMockFrom(c.mock).GetInvocationParams(c.methodInvocations)",
         "if len(_params) > 0 \x7b"]
        ++ (if isVariadic then
              ((argTypes.take (numArgs - 1)).mapIdx nonVariadicCaptureLines).flatten
                ++ variadicCaptureLines (numArgs - 1) (argTypes.getD (numArgs - 1) "")
            else (argTypes.mapIdx nonVariadicCaptureLines).flatten)
        ++ ["\x7d", "return"]
      else [])
  ++ ["\x7d", ""]

/-- Lines of `generateMockFor` (mockgen.go:148-167). -/
def generateMockForLines (packageMap : List (String × String)) (iface : Interface)
    (mockTypeName selfPackage : String) : List String :=
  let typeParamNames := typeParamsStringFrom iface.typeParams packageMap selfPackage false
  let typeParams := typeParamsStringFrom iface.typeParams packageMap selfPackage true
  generateMockTypeLines mockTypeName typeParams typeParamNames
  ++ (iface.methods.map (fun method =>
        mockMethodLines packageMap mockTypeName typeParamNames method selfPackage ++ [""])).flatten
  ++ generateMockVerifyMethodsLines mockTypeName typeParamNames
  ++ generateVerifierTypeLines mockTypeName typeParams typeParamNames
  ++ (iface.methods.map (fun method =>
        let ovName := mockTypeName ++ "_" ++ method.name ++ "_OngoingVerification"
        let ad := argDataFor method packageMap selfPackage
        generateVerifierMethodLines mockTypeName typeParamNames method ovName ad.args ad.argNames
          ++ generateOngoingVerificationTypeLines mockTypeName typeParams typeParamNames ovName
          ++ generateOngoingVerificationGetCapturedArgumentsLines ovName ad.argNames
              ad.argTypes typeParamNames
          ++ generateOngoingVerificationGetAllCapturedArgumentsLines ovName typeParamNames
              ad.argTypes method.variadic.isSome)).flatten

/-- The import-spec lines of mockgen.go:62-71: the two fixed imports, then one aliased
line per entry of the nonVendorPackageMap in Go's nondeterministic map-iteration order
(`nvOrder`), skipping the self package and the two fixed paths, then the dot imports. -/
def importSpecLines (nvOrder : List (String × String)) (selfPackage : String)
    (dotImports : List String) : List String :=
  ["\"reflect\"", "\"time\""]
  ++ ((nvOrder.filter (fun e =>
        e.1 != selfPackage && e.1 != "time" && e.1 != "reflect")).map
        (fun e => e.2 ++ " " ++ quoteStr e.1))
  ++ dotImports.map (fun packagePath => ". " ++ quoteStr packagePath)

/-- Lines of `generateCode` (mockgen.go:49-81).  `nvOrder` is the iteration order Go's
`range` happens to use over the nonVendorPackageMap; theorems constrain it to be a
permutation of the map's entries. -/
def generateCodeLines (source : String) (pkg : Package) (structName pkgName selfPackage : String)
    (nvOrder : List (String × String)) : List String :=
  ["// Code generated by pegomock. DO NOT EDIT.",
   "// Source: " ++ source,
   "",
   "package " ++ pkgName,
   "",
   "import ("]
  ++ importSpecLines nvOrder selfPackage pkg.dotImports
  ++ [")"]
  ++ (pkg.interfaces.map (fun iface =>
        generateMockForLines (generateUniquePackageNamesFor (importPathsOf pkg)).1 iface
          (if structName = "" then "Mock" ++ iface.name else structName) selfPackage)).flatten

/-! ## The formatting pass and GenerateOutput (mockgen.go:38-42, 437-443) -/

/-- The import path quoted inside an import-spec line. -/
def importPathOfSpec (l : String) : String :=
  String.mk (((l.data.dropWhile (fun c => c != '"')).drop 1).takeWhile (fun c => c != '"'))

/-- The order ast.SortImports establishes inside an import block: by import path, ties
broken by the whole spec line (Go compares path, then name). -/
def specLE (a b : String) : Prop :=
  goStrLt (importPathOfSpec a) (importPathOfSpec b) = true ∨
    (importPathOfSpec a = importPathOfSpec b ∧ goStrLe a b = true)

instance : DecidableRel specLE := fun a b => by
  unfold specLE
  infer_instance

instance : IsTotal String specLE := by
  constructor
  intro a b
  rcases goStrLt_trichotomy (importPathOfSpec a) (importPathOfSpec b) with h | h | h
  · exact Or.inl (Or.inl h)
  · rcases goStrLe_total a b with h2 | h2
    · exact Or.inl (Or.inr ⟨h, h2⟩)
    · exact Or.inr (Or.inr ⟨h.symm, h2⟩)
  · exact Or.inr (Or.inl h)

instance : IsTrans String specLE := by
  constructor
  intro a b c hab hbc
  rcases hab with hab | ⟨hab1, hab2⟩
  · rcases hbc with hbc | ⟨hbc1, hbc2⟩
    · exact Or.inl (goStrLt_trans hab hbc)
    · exact Or.inl (hbc1 ▸ hab)
  · rcases hbc with hbc | ⟨hbc1, hbc2⟩
    · exact Or.inl (hab1 ▸ hbc)
    · exact Or.inr ⟨hab1.trans hbc1, goStrLe_trans hab2 hbc2⟩

instance : IsAntisymm String specLE := by
  constructor
  intro a b hab hba
  rcases hab with hab | ⟨hab1, hab2⟩
  · rcases hba with hba | ⟨hba1, _⟩
    · exact (goStrLt_asymm hab hba).elim
    · exfalso; rw [hba1] at hab; exact goStrLt_asymm hab hab
  · rcases hba with hba | ⟨_, hba2⟩
    · exfalso; rw [hab1] at hba; exact goStrLt_asymm hba hba
    · exact goStrLe_antisymm hab2 hba2

/-- The canonical order of an import block's specs. -/
def sortSpecs (specs : List String) : List String := List.insertionSort specLE specs

/-- Modelled from the spec (§6): the part of the mandatory go/format.Source pass that is
sensitive to the emission order — for a complete source file, gofmt sorts the specs of
each parenthesized import declaration by import path (ast.SortImports).  On the
line-structured buffer modelled here that is: sort the lines strictly between the
single "import (" line and the next ")" line. -/
def sortImportsInLines (lines : List String) : List String :=
  let pre := lines.takeWhile (fun l => l != "import (")
  match lines.dropWhile (fun l => l != "import (") with
  | [] => lines
  | header :: tail =>
    pre ++ header ::
      (sortSpecs (tail.takeWhile (fun l => l != ")")) ++ tail.dropWhile (fun l => l != ")"))

/-- Modelled from the spec (§6): go/format.Source as used by `formattedOutput`; it
succeeds on the well-formed buffers the generator produces and canonicalizes the import
block. -/
def goFormatSource (lines : List String) : Except String (List String) :=
  .ok (sortImportsInLines lines)

/-- The buffer contents `g.buf.String()`: every `p` call wrote its line plus a newline. -/
def bufString (lines : List String) : String := String.join (lines.map (fun l => l ++ "\n"))

/-- Model of `formattedOutput` (mockgen.go:437-443), parameterized by the formatting pass:
on failure the generator panics with a message carrying the error and the entire
offending buffer; on success it returns the formatted source. -/
def formattedOutput (fmtSource : List String → Except String (List String))
    (bufLines : List String) : Except String (List String) :=
  match fmtSource bufLines with
  | .ok src => .ok src
  | .error err =>
    .error ("Failed to format generated source code: " ++ err ++ "\n" ++ bufString bufLines)

/-- Model of `GenerateOutput` (mockgen.go:38-42), parameterized by the formatting pass. -/
def GenerateOutput (fmtSource : List String → Except String (List String)) (source : String)
    (pkg : Package) (nameOut packageOut selfPackage : String)
    (nvOrder : List (String × String)) : Except String (List String) :=
  formattedOutput fmtSource (generateCodeLines source pkg nameOut packageOut selfPackage nvOrder)

/-! ## Semantics of the emitted code fragments

The generator emits Go text; the claims about what that text does at runtime are settled
against the following direct denotations of the emitted statement templates. -/

/-- A runtime value held in an `interface{}` slot: its dynamic type plus an opaque
payload. -/
structure GoValue where
  dynType : GoType
  payload : Nat
deriving DecidableEq

/-- Semantics of Go's comma-ok type assertion `x, ok := v.(t)`: succeeds exactly when the
dynamic type is `t`. -/
def goTypeAssertOk (v : GoValue) (t : GoType) : Option GoValue :=
  if v.dynType = t then some v else none

/-- Semantics of Go's single-result type assertion `x := v.(t)`: panics on mismatch. -/
def goTypeAssertPanic (v : GoValue) (t : GoType) : Except String GoValue :=
  if v.dynType = t then .ok v else .error "interface conversion"

/-- Semantics of the two-step assertion emitted for a directional channel return type
(mockgen.go:236-240): first the comma-ok assertion into the undirected channel type, and
only if that fails the panicking assertion into the directional type.  The second
component counts the assertions attempted. -/
def emittedChanAssert (v : GoValue) (dir : Nat) (elem : GoType) :
    Except String GoValue × Nat :=
  match goTypeAssertOk v (GoType.chanType 0 elem) with
  | some r => (.ok r, 1)
  | none => (goTypeAssertPanic v (GoType.chanType dir elem), 2)

/-- Semantics of the assertion emitted for one result slot (mockgen.go:233-243). -/
def emittedSlotAssert (returnType : GoType) (v : GoValue) : Except String GoValue × Nat :=
  match returnType with
  | .chanType dir elem =>
    if dir ≠ 0 then emittedChanAssert v dir elem
    else (goTypeAssertPanic v (GoType.chanType dir elem), 1)
  | t => (goTypeAssertPanic v t, 1)

/-- Semantics of the result-unpacking statements emitted by generateMockMethod
(mockgen.go:224-248): holders start at their zero values; only when the result vector is
non-empty, each non-nil slot is type-asserted into its holder.  The second component
counts the type assertions attempted. -/
def emittedUnpackResults (returnTypes : List GoType) (zeros : List GoValue)
    (results : List (Option GoValue)) : Except String (List GoValue) × Nat :=
  if results.length ≠ 0 then
    returnTypes.enum.foldl
      (fun acc p =>
        match acc.1 with
        | .error e => (.error e, acc.2)
        | .ok holders =>
          match results.getD p.1 none with
          | none => (.ok holders, acc.2)
          | some v =>
            let r := emittedSlotAssert p.2 v
            (r.1.map (fun val => holders.set p.1 val), acc.2 + r.2))
      ((Except.ok zeros), 0)
  else ((Except.ok zeros), 0)

/-- Semantics of the snippet emitted by GenerateParamsDeclaration (mockgen.go:308-318):
the composite literal evaluates the listed names to `initVals`; in the variadic case the
range loop then appends each element of the variadic slot in order. -/
def emittedParamsVector {α : Type} (initVals variadicVals : List α) (isVariadic : Bool) :
    List α :=
  if isVariadic then variadicVals.foldl (fun ps v => ps ++ [v]) initVals else initVals

/-- The matrix cell `_params[x][u]` (out-of-range reads yield nil, which the emitted code
never performs in range). -/
def goCellAt {α : Type} (params : List (List (Option α))) (x u : Nat) : Option α :=
  (params.getD x []).getD u none

/-- Semantics of the inner reconstruction loops emitted for the trailing variadic
position (mockgen.go:357-366): for each invocation `u`, allocate a zero-filled inner
slice of length `len(_params) - i` and overwrite position `x - i` from every non-nil
cell `_params[x][u]` with `x ≥ i`. -/
def emittedVariadicParam {α : Type} (params : List (List (Option α)))
    (numInvocations i : Nat) (zero : α) : List (List α) :=
  (List.range numInvocations).map (fun u =>
    (List.range (params.length - i)).foldl
      (fun inner j =>
        match goCellAt params (i + j) u with
        | some v => inner.set j v
        | none => inner)
      (List.replicate (params.length - i) zero))

/-- Semantics of the variadic position of the emitted GetAllCapturedArguments body
(mockgen.go:350-380): the reconstruction only runs under the `len(_params) > 0` guard;
otherwise the named result stays nil (the empty sequence). -/
def emittedGetAllVariadicCapture {α : Type} (params : List (List (Option α)))
    (numInvocations i : Nat) (zero : α) : List (List α) :=
  if params.length > 0 then emittedVariadicParam params numInvocations i zero else []

/-- One recorded call: its fixed argument values and its variadic values. -/
structure GoCall (α : Type) where
  fixed : List α
  variadic : List α
deriving DecidableEq

/-- The largest variadic arity among the aggregated calls. -/
def maxVariadicArity {α : Type} (calls : List (GoCall α)) : Nat :=
  calls.foldr (fun c m => max c.variadic.length m) 0

/-- Modelled from the spec (§4.4): the runtime's `GetInvocationParams` matrix for `k`
fixed parameters — column `x < k` holds call `u`'s fixed argument `x`, column `k + j`
holds call `u`'s `j`-th variadic value or nil when that call supplied fewer variadic
values than another call being aggregated together; with no matched invocations the
matrix is empty. -/
def invocationMatrix {α : Type} (k : Nat) (calls : List (GoCall α)) :
    List (List (Option α)) :=
  if calls.isEmpty then []
  else
    (List.range (k + maxVariadicArity calls)).map (fun x =>
      calls.map (fun c => if x < k then c.fixed[x]? else c.variadic[x - k]?))

/-- Semantics of Go's `a[len(a)-1]`: the last element, or a panic on an empty slice. -/
def goIndexLast {α : Type} (s : List α) : Except String α :=
  match s.getLast? with
  | some v => .ok v
  | none => .error "index out of range"

/-- Semantics of the body emitted by generateOngoingVerificationGetCapturedArguments
(mockgen.go:336-337): evaluate GetAllCapturedArguments, then take `a[len(a)-1]` of each
per-parameter sequence in order; the first panic aborts. -/
def emittedGetCapturedArgumentsSem {α : Type} : List (List α) → Except String (List α)
  | [] => .ok []
  | s :: rest =>
    match goIndexLast s, emittedGetCapturedArgumentsSem rest with
    | .ok v, .ok vs => .ok (v :: vs)
    | .error e, _ => .error e
    | .ok _, .error e => .error e

/-- The branch condition of mockgen.go:233: the return type is a `*model.ChanType` with
nonzero direction. -/
def isDirectionalChan : GoType → Bool
  | .chanType dir _ => dir != 0
  | _ => false

/-! ## Helper lemmas -/

theorem foldl_concat_eq_append {α : Type} (init l : List α) :
    l.foldl (fun ps v => ps ++ [v]) init = init ++ l := by
  induction l generalizing init with
  | nil => simp
  | cons a l ih => simp [ih]

theorem getD_append_singleton {α : Type} (l : List α) (x d : α) :
    (l ++ [x]).getD l.length d = x := by
  simp [List.getD_eq_getElem?_getD, List.getElem?_concat_length]

theorem getLast?_eq_getLastD {α : Type} (s : List α) (d : α) (h : s ≠ []) :
    s.getLast? = some (s.getLastD d) := by
  cases s with
  | nil => exact absurd rfl h
  | cons a l =>
    rw [List.getLastD_eq_getLast?, List.getLast?_cons]
    simp

theorem emittedGetCaptured_eq_lasts {α : Type} (d : α) (seqs : List (List α))
    (hseqs : ∀ s ∈ seqs, s ≠ []) :
    emittedGetCapturedArgumentsSem seqs = Except.ok (seqs.map (fun s => s.getLastD d)) := by
  induction seqs with
  | nil => rfl
  | cons s rest ih =>
    have hs : s ≠ [] := hseqs s (List.mem_cons_self _ _)
    have hrest : ∀ t ∈ rest, t ≠ [] := fun t ht => hseqs t (List.mem_cons_of_mem _ ht)
    have h1 : goIndexLast s = Except.ok (s.getLastD d) := by
      rw [goIndexLast, getLast?_eq_getLastD s d hs]
    rw [emittedGetCapturedArgumentsSem, h1, ih hrest]
    rfl

/-- Claim C9: GenerateOutput always runs the generated buffer through the final
formatting pass; if formatting fails, generation fails fatally and the failure message
carries the offending buffer content (the message ends with the whole buffer); on
success the formatted bytes are returned. -/
theorem claim_C9_formatting_mandatory
    (fmtSource : List String → Except String (List String)) (source : String)
    (pkg : Package) (nameOut packageOut selfPackage : String)
    (nvOrder : List (String × String)) :
    GenerateOutput fmtSource source pkg nameOut packageOut selfPackage nvOrder =
      formattedOutput fmtSource
        (generateCodeLines source pkg nameOut packageOut selfPackage nvOrder) ∧
    (∀ s, fmtSource (generateCodeLines source pkg nameOut packageOut selfPackage nvOrder) =
        .ok s →
      GenerateOutput fmtSource source pkg nameOut packageOut selfPackage nvOrder = .ok s) ∧
    (∀ e, fmtSource (generateCodeLines source pkg nameOut packageOut selfPackage nvOrder) =
        .error e →
      GenerateOutput fmtSource source pkg nameOut packageOut selfPackage nvOrder =
        .error ("Failed to format generated source code: " ++ e ++ "\n" ++
          bufString (generateCodeLines source pkg nameOut packageOut selfPackage nvOrder))) := by
  refine ⟨rfl, ?_, ?_⟩
  · intro s h
    simp [GenerateOutput, formattedOutput, h]
  · intro e h
    simp [GenerateOutput, formattedOutput, h]

theorem claim_C9_witness :
    (fun _ : List String => (Except.error "bad" : Except String (List String)))
        (generateCodeLines "s" ⟨"p", [], []⟩ "" "out" "" []) = Except.error "bad" ∧
    GenerateOutput (fun _ => Except.error "bad") "s" ⟨"p", [], []⟩ "" "out" "" [] =
      Except.error ("Failed to format generated source code: " ++ "bad" ++ "\n" ++
        bufString (generateCodeLines "s" ⟨"p", [], []⟩ "" "out" "" [])) :=
  ⟨rfl,
   (claim_C9_formatting_mandatory (fun _ => Except.error "bad") "s" ⟨"p", [], []⟩ ""
     "out" "" []).2.2 "bad" rfl⟩

/-- Claim C4: for a method with k fixed inputs and a variadic tail, the emitted parameter
vector construction lists exactly the k fixed argument names in the composite literal,
then appends each element of the variadic slot individually, so at runtime the vector is
the flat concatenation with k + n entries for n supplied variadic values; a non-variadic
method lists exactly the fixed argument names. -/
theorem claim_C4_flat_params_vector (pm : List (String × String)) (po : String)
    (method : Method) (vp : Parameter) (α : Type) (fixedVals variadicVals : List α)
    (argNames2 : List String) (vals : List α)
    (h : method.variadic = some vp) (hfix : fixedVals.length = method.inParams.length) :
    (argDataFor method pm po).argNames.length = method.inParams.length + 1 ∧
    (argDataFor method pm po).argNames.take ((argDataFor method pm po).argNames.length - 1) =
      method.inParams.mapIdx (fun i arg => argNameFor i arg) ∧
    GenerateParamsDeclarationLines (argDataFor method pm po).argNames true =
      ["_params := []pegomock.Param\x7b" ++
         join (method.inParams.mapIdx (fun i arg => argNameFor i arg)) ++ "\x7d",
       "for _, param := range " ++ argNameFor method.inParams.length vp ++ " \x7b",
       "_params = append(_params, param)",
       "\x7d"] ∧
    emittedParamsVector fixedVals variadicVals true = fixedVals ++ variadicVals ∧
    (emittedParamsVector fixedVals variadicVals true).length =
      method.inParams.length + variadicVals.length ∧
    GenerateParamsDeclarationLines argNames2 false =
      ["_params := []pegomock.Param\x7b" ++ join argNames2 ++ "\x7d"] ∧
    emittedParamsVector vals ([] : List α) false = vals := by
  have hnames : (argDataFor method pm po).argNames =
      method.inParams.mapIdx (fun i arg => argNameFor i arg) ++
        [argNameFor method.inParams.length vp] := by
    simp [argDataFor, h]
  have hlen0 : (method.inParams.mapIdx (fun i arg => argNameFor i arg)).length =
      method.inParams.length := List.length_mapIdx
  have hlen : (argDataFor method pm po).argNames.length = method.inParams.length + 1 := by
    simp [hnames, hlen0]
  have h1 : (method.inParams.mapIdx (fun i arg => argNameFor i arg) ++
      [argNameFor method.inParams.length vp]).length - 1 =
      (method.inParams.mapIdx (fun i arg => argNameFor i arg)).length := by
    simp
  refine ⟨hlen, ?_, ?_, ?_, ?_, ?_, ?_⟩
  · rw [hnames, h1, List.take_left]
  · rw [GenerateParamsDeclarationLines, if_pos rfl, hnames, h1, List.take_left,
      getD_append_singleton]
    rfl
  · rw [emittedParamsVector, if_pos rfl, foldl_concat_eq_append]
  · rw [emittedParamsVector, if_pos rfl, foldl_concat_eq_append]
    simp [hfix]
  · rfl
  · rfl

theorem claim_C4_witness :
    ({ name := "Push", inParams := [⟨"k", GoType.named "" "string"⟩],
       variadic := some ⟨"items", GoType.named "" "int"⟩,
       out := [] } : Method).variadic = some ⟨"items", GoType.named "" "int"⟩ ∧
    ([(3 : Nat)].length =
      ({ name := "Push", inParams := [⟨"k", GoType.named "" "string"⟩],
         variadic := some ⟨"items", GoType.named "" "int"⟩,
         out := [] } : Method).inParams.length) ∧
    emittedParamsVector [(3 : Nat)] [7, 9] true = [3, 7, 9] := by
  refine ⟨rfl, rfl, ?_⟩
  have h := claim_C4_flat_params_vector [] ""
    { name := "Push", inParams := [⟨"k", GoType.named "" "string"⟩],
      variadic := some ⟨"items", GoType.named "" "int"⟩, out := [] }
    ⟨"items", GoType.named "" "int"⟩ Nat [3] [7, 9] [] [] rfl rfl
  exact h.2.2.2.1

/-- Claim C5: for a return type that is a directional channel (Dir nonzero) the emitted
intercepting method performs the two-step assertion — first into the undirected form of
the channel type and, only if that fails, directly into the directional type — while
every non-channel or undirected return type gets a single direct assertion; in the
semantic model the first path succeeds when the runtime stored the undirected form and
the second when it stored the directional form. -/
theorem claim_C5_channel_direction_fallback (pm : List (String × String)) (po : String)
    (i dir : Nat) (elem : GoType) (payload : Nat) (t : GoType)
    (hdir : dir ≠ 0) (ht : isDirectionalChan t = false) :
    resultAssertionLines pm po i (GoType.chanType dir elem) =
      ["var ok bool",
       "  _ret" ++ itoa i ++ ", ok = _result[" ++ itoa i ++ "].(" ++
         (GoType.chanType 0 elem).render pm po ++ ")",
       "if !ok\x7b",
       "_ret" ++ itoa i ++ " = _result[" ++ itoa i ++ "].(" ++
         (GoType.chanType dir elem).render pm po ++ ")",
       "\x7d"] ∧
    resultAssertionLines pm po i t = [singleAssertionLine pm po i t] ∧
    emittedChanAssert ⟨GoType.chanType 0 elem, payload⟩ dir elem =
      (Except.ok ⟨GoType.chanType 0 elem, payload⟩, 1) ∧
    emittedChanAssert ⟨GoType.chanType dir elem, payload⟩ dir elem =
      (Except.ok ⟨GoType.chanType dir elem, payload⟩, 2) := by
  refine ⟨by simp [resultAssertionLines, hdir], ?_, ?_, ?_⟩
  · cases t with
    | chanType d e =>
      have hd : d = 0 := by simpa [isDirectionalChan] using ht
      subst hd
      simp [resultAssertionLines]
    | named p n => simp [resultAssertionLines, singleAssertionLine]
    | pointer e => simp [resultAssertionLines, singleAssertionLine]
    | slice e => simp [resultAssertionLines, singleAssertionLine]
    | mapType k v => simp [resultAssertionLines, singleAssertionLine]
    | typeParamRef n => simp [resultAssertionLines, singleAssertionLine]
  · simp [emittedChanAssert, goTypeAssertOk]
  · simp [emittedChanAssert, goTypeAssertOk, goTypeAssertPanic, hdir, Ne.symm hdir]

theorem claim_C5_witness :
    (2 : Nat) ≠ 0 ∧ isDirectionalChan (GoType.named "" "int") = false ∧
    emittedChanAssert ⟨GoType.chanType 0 (GoType.named "" "int"), 7⟩ 2 (GoType.named "" "int") =
      (Except.ok ⟨GoType.chanType 0 (GoType.named "" "int"), 7⟩, 1) ∧
    emittedChanAssert ⟨GoType.chanType 2 (GoType.named "" "int"), 7⟩ 2 (GoType.named "" "int") =
      (Except.ok ⟨GoType.chanType 2 (GoType.named "" "int"), 7⟩, 2) := by
  have h := claim_C5_channel_direction_fallback [] "" 0 2 (GoType.named "" "int") 7
    (GoType.named "" "int") (by decide) (by decide)
  exact ⟨by decide, by decide, h.2.2.1, h.2.2.2⟩

theorem unpack_foldl_none (results : List (Option GoValue))
    (hall : ∀ x ∈ results, x = none) (L : List (Nat × GoType)) (holders : List GoValue)
    (c : Nat) :
    L.foldl
      (fun acc p =>
        match acc.1 with
        | .error e => (.error e, acc.2)
        | .ok holders2 =>
          match results.getD p.1 none with
          | none => (.ok holders2, acc.2)
          | some v =>
            let r := emittedSlotAssert p.2 v
            (r.1.map (fun val => holders2.set p.1 val), acc.2 + r.2))
      ((Except.ok holders), c) = ((Except.ok holders), c) := by
  induction L with
  | nil => rfl
  | cons p rest ih =>
    have hnone : results.getD p.1 none = none := by
      rcases h2 : results[p.1]? with _ | x
      · simp [List.getD_eq_getElem?_getD, h2]
      · have hx := hall x (List.getElem?_mem h2)
        simp [List.getD_eq_getElem?_getD, h2, hx]
    rw [List.foldl_cons]
    simp only [hnone]
    exact ih

/-- Claim C6: for a method with at least one output, the emitted intercepting method
declares one zero-valued result holder per output before any assertion and guards every
type assertion both by the result vector being non-empty and by the individual slot
being non-nil; a zero-length result vector (and likewise a vector of only nil slots)
yields the declared zero values with no type assertion attempted. -/
theorem claim_C6_empty_result_zero_values (pm : List (String × String))
    (po mockType tpn : String) (method : Method) (zeros : List GoValue)
    (resultsN : List (Option GoValue)) (hout : method.out ≠ [])
    (hall : ∀ x ∈ resultsN, x = none) :
    mockMethodLines pm mockType tpn method po =
      ["func (mock *" ++ mockType ++ tpn ++ ") " ++ method.name ++ "(" ++
         join (argDataFor method pm po).args ++ ") (" ++
         join (stringSliceFrom (argDataFor method pm po).returnTypes pm po) ++ ") \x7b",
       "if mock == nil \x7b",
       "\tpanic(\"mock must not be nil. Use myMock := New" ++ mockType ++ "().\")",
       "\x7d"]
      ++ GenerateParamsDeclarationLines (argDataFor method pm po).argNames
          method.variadic.isSome
      ++ ["_result :=" ++ " pegomock.GetGenericMockFrom(mock).Invoke(\"" ++ method.name ++
            "\", _params, []reflect.Type\x7b" ++
            String.intercalate ", "
              (reflectReturnTypesOf (argDataFor method pm po).returnTypes pm po) ++
            "\x7d)"]
      ++ resultHandlingLines pm po (argDataFor method pm po).returnTypes
      ++ ["\x7d"] ∧
    resultHandlingLines pm po (argDataFor method pm po).returnTypes =
      ((argDataFor method pm po).returnTypes.mapIdx
          (fun i returnType => "var _ret" ++ itoa i ++ " " ++ returnType.render pm po))
        ++ ["if len(_result) != 0 \x7b"]
        ++ ((argDataFor method pm po).returnTypes.mapIdx (fun i returnType =>
              ("if _result[" ++ itoa i ++ "] != nil \x7b") ::
                (resultAssertionLines pm po i returnType ++ ["\x7d"]))).flatten
        ++ ["\x7d",
            "return " ++ String.intercalate ", "
              ((argDataFor method pm po).returnTypes.mapIdx (fun i _ => "_ret" ++ itoa i))] ∧
    ((argDataFor method pm po).returnTypes.mapIdx
        (fun i returnType => "var _ret" ++ itoa i ++ " " ++ returnType.render pm po)).length =
      (argDataFor method pm po).returnTypes.length ∧
    emittedUnpackResults (argDataFor method pm po).returnTypes zeros [] =
      ((Except.ok zeros), 0) ∧
    emittedUnpackResults (argDataFor method pm po).returnTypes zeros resultsN =
      ((Except.ok zeros), 0) := by
  have hpos : 0 < method.out.length := List.length_pos.mpr hout
  refine ⟨?_, rfl, List.length_mapIdx, by simp [emittedUnpackResults], ?_⟩
  · simp [mockMethodLines, hpos]
  · by_cases hlen : resultsN.length = 0
    · rw [emittedUnpackResults, if_neg (by omega)]
    · rw [emittedUnpackResults, if_pos hlen]
      exact unpack_foldl_none resultsN hall _ zeros 0

theorem claim_C6_witness :
    (({ name := "Get", inParams := [], variadic := none,
        out := [⟨"", GoType.named "" "string"⟩] } : Method).out ≠ []) ∧
    (∀ x ∈ ([none] : List (Option GoValue)), x = none) ∧
    emittedUnpackResults
      (argDataFor { name := "Get", inParams := [], variadic := none,
                    out := [⟨"", GoType.named "" "string"⟩] } [] "").returnTypes
      [⟨GoType.named "" "string", 0⟩] [] = ((Except.ok [⟨GoType.named "" "string", 0⟩]), 0) ∧
    emittedUnpackResults
      (argDataFor { name := "Get", inParams := [], variadic := none,
                    out := [⟨"", GoType.named "" "string"⟩] } [] "").returnTypes
      [⟨GoType.named "" "string", 0⟩] [none] = ((Except.ok [⟨GoType.named "" "string", 0⟩]), 0) := by
  have h := claim_C6_empty_result_zero_values [] "" "MockThing" ""
    { name := "Get", inParams := [], variadic := none,
      out := [⟨"", GoType.named "" "string"⟩] }
    [⟨GoType.named "" "string", 0⟩] [none] (by decide)
    (by intro x hx; simpa using hx)
  refine ⟨by decide, ?_, h.2.2.2.1, h.2.2.2.2⟩
  intro x hx
  simpa using hx

/-- Claim C8: for a method with at least one parameter, the emitted GetCapturedArguments
body calls GetAllCapturedArguments and returns, per parameter position, exactly the last
element of each per-parameter sequence; for a method with zero parameters the body is
empty. -/
theorem claim_C8_captured_is_last_of_all (ovName tpn : String)
    (argNames argTypes : List String) (α : Type) (d : α) (seqs : List (List α))
    (hne : argNames ≠ []) (hseqs : ∀ s ∈ seqs, s ≠ []) :
    generateOngoingVerificationGetCapturedArgumentsLines ovName argNames argTypes tpn =
      ["func (c *" ++ ovName ++ tpn ++ ") GetCapturedArguments() (" ++ join argTypes ++
         ") \x7b",
       join argNames ++ " := c.GetAllCapturedArguments()",
       "return " ++ String.intercalate ", "
         (argNames.map (fun argName => argName ++ "[len(" ++ argName ++ ")-1]")),
       "\x7d", ""] ∧
    emittedGetCapturedArgumentsSem seqs = Except.ok (seqs.map (fun s => s.getLastD d)) ∧
    generateOngoingVerificationGetCapturedArgumentsLines ovName [] argTypes tpn =
      ["func (c *" ++ ovName ++ tpn ++ ") GetCapturedArguments() (" ++ join argTypes ++
         ") \x7b",
       "\x7d", ""] := by
  refine ⟨?_, emittedGetCaptured_eq_lasts d seqs hseqs, by
    simp [generateOngoingVerificationGetCapturedArgumentsLines]⟩
  have hpos : 0 < argNames.length := List.length_pos.mpr hne
  simp [generateOngoingVerificationGetCapturedArgumentsLines, hpos]

theorem claim_C8_witness :
    (["key"] : List String) ≠ [] ∧
    (∀ s ∈ ([[1, 2], [5]] : List (List Nat)), s ≠ []) ∧
    emittedGetCapturedArgumentsSem ([[1, 2], [5]] : List (List Nat)) = Except.ok [2, 5] := by
  have h := claim_C8_captured_is_last_of_all "MockThing_Get_OngoingVerification" ""
    ["key"] ["string"] Nat 0 [[1, 2], [5]] (by decide) (by decide)
  exact ⟨by decide, by decide, h.2.1⟩

theorem fold_packageMap_preserved (L : List String) (st : ResolverState) (p : String)
    (h : ∀ q ∈ L, q ≠ p) :
    mapGet (L.foldl processImportPath st).packageMap p = mapGet st.packageMap p := by
  induction L generalizing st with
  | nil => rfl
  | cons q rest ih =>
    rw [List.foldl_cons, ih _ (fun r hr => h r (List.mem_cons_of_mem _ hr))]
    have hq : q ≠ p := h q (List.mem_cons_self _ _)
    simp only [processImportPath]
    exact mapGet_mapSet_ne _ _ (Ne.symm hq)

theorem fold_nvm_preserved (L : List String) (st : ResolverState) (c : String)
    (h : ∀ q ∈ L, vendorCleaned q ≠ c) :
    mapGet (L.foldl processImportPath st).nonVendorPackageMap c =
      mapGet st.nonVendorPackageMap c := by
  induction L generalizing st with
  | nil => rfl
  | cons q rest ih =>
    rw [List.foldl_cons, ih _ (fun r hr => h r (List.mem_cons_of_mem _ hr))]
    have hq : vendorCleaned q ≠ c := h q (List.mem_cons_self _ _)
    simp only [processImportPath]
    exact mapGet_mapSet_ne _ _ (Ne.symm hq)

theorem uniquePackageName_not_mem_not_keyword (used : List String) (base : String) :
    uniquePackageName used base ∉ used ∧
      isGoKeyword (uniquePackageName used base) = false := by
  have h := uniquePackageName_good used base
  simp only [isBadName, Bool.or_eq_false_iff] at h
  refine ⟨?_, h.2⟩
  intro hmem
  have h1 := h.1
  simp at h1
  exact h1 hmem

theorem resolver_fold_invariant (L : List String) :
    ∀ st : ResolverState,
      ((∀ k v, mapGet st.packageMap k = some v → v ∈ st.used) ∧
       (∀ k v, mapGet st.packageMap k = some v → isGoKeyword v = false) ∧
       (∀ k1 k2 v1 v2, mapGet st.packageMap k1 = some v1 →
          mapGet st.packageMap k2 = some v2 → k1 ≠ k2 →
          k1 ≠ mockFrameworkImportPath → k2 ≠ mockFrameworkImportPath → v1 ≠ v2)) →
      ((∀ k v, mapGet (L.foldl processImportPath st).packageMap k = some v →
          v ∈ (L.foldl processImportPath st).used) ∧
       (∀ k v, mapGet (L.foldl processImportPath st).packageMap k = some v →
          isGoKeyword v = false) ∧
       (∀ k1 k2 v1 v2, mapGet (L.foldl processImportPath st).packageMap k1 = some v1 →
          mapGet (L.foldl processImportPath st).packageMap k2 = some v2 → k1 ≠ k2 →
          k1 ≠ mockFrameworkImportPath → k2 ≠ mockFrameworkImportPath → v1 ≠ v2)) := by
  induction L with
  | nil => exact fun st h => h
  | cons p rest ih =>
    intro st h
    obtain ⟨hused, hkw, hdist⟩ := h
    rw [List.foldl_cons]
    apply ih
    have hfresh := uniquePackageName_not_mem_not_keyword st.used (sanitize (pathBase p))
    constructor
    · intro k v hget
      by_cases hk : k = p
      · subst hk
        simp only [processImportPath, mapGet_mapSet_self, Option.some.injEq] at hget
        subst hget
        simp [processImportPath]
      · simp only [processImportPath, mapGet_mapSet_ne _ _ hk] at hget
        simp only [processImportPath]
        exact List.mem_append_left _ (hused k v hget)
    constructor
    · intro k v hget
      by_cases hk : k = p
      · subst hk
        simp only [processImportPath, mapGet_mapSet_self, Option.some.injEq] at hget
        subst hget
        by_cases hfw : k = mockFrameworkImportPath
        · simp [hfw, isGoKeyword, goKeywords]
        · simp only [if_neg hfw]
          exact hfresh.2
      · simp only [processImportPath, mapGet_mapSet_ne _ _ hk] at hget
        exact hkw k v hget
    · intro k1 k2 v1 v2 h1 h2 hne hnf1 hnf2
      by_cases hk1 : k1 = p
      · subst hk1
        have hk2 : k2 ≠ k1 := Ne.symm hne
        simp only [processImportPath, mapGet_mapSet_self, Option.some.injEq] at h1
        simp only [processImportPath, mapGet_mapSet_ne _ _ hk2] at h2
        subst h1
        rw [if_neg hnf1]
        intro heq
        exact hfresh.1 (heq ▸ hused k2 v2 h2)
      · by_cases hk2 : k2 = p
        · subst hk2
          simp only [processImportPath, mapGet_mapSet_ne _ _ hk1] at h1
          simp only [processImportPath, mapGet_mapSet_self, Option.some.injEq] at h2
          subst h2
          rw [if_neg hnf2]
          intro heq
          exact hfresh.1 (heq ▸ hused k1 v1 h1)
        · simp only [processImportPath, mapGet_mapSet_ne _ _ hk1,
            mapGet_mapSet_ne _ _ hk2] at h1 h2
          exact hdist k1 k2 v1 v2 h1 h2 hne hnf1 hnf2

/-- Claim C2 (amended): every alias the resolver assigns (the runtime-support module's
hardcoded "pegomock" included) is keyword-free, the aliases of distinct user paths are
pairwise distinct, and the runtime-support path always receives the fixed alias
"pegomock" — but that fixed alias can coincide with the alias of a lexicographically
earlier user path whose sanitized basename is "pegomock" (see
claim_C2_counterexample), so full pairwise distinctness holds only outside the
runtime-support path. -/
theorem claim_C2_alias_resolution (importPaths : List String) (hnd : importPaths.Nodup)
    (hfw : mockFrameworkImportPath ∈ importPaths) :
    mapGet (generateUniquePackageNamesFor importPaths).1 mockFrameworkImportPath =
      some "pegomock" ∧
    (∀ k v, mapGet (generateUniquePackageNamesFor importPaths).1 k = some v →
      isGoKeyword v = false) ∧
    (∀ k1 k2 v1 v2, mapGet (generateUniquePackageNamesFor importPaths).1 k1 = some v1 →
      mapGet (generateUniquePackageNamesFor importPaths).1 k2 = some v2 → k1 ≠ k2 →
      k1 ≠ mockFrameworkImportPath → k2 ≠ mockFrameworkImportPath → v1 ≠ v2) := by
  have hinv := resolver_fold_invariant (sortStrings importPaths) ⟨[], [], []⟩
    ⟨by intro k v h; simp [mapGet] at h,
     by intro k v h; simp [mapGet] at h,
     by intro k1 k2 v1 v2 h1 _ _ _ _; simp [mapGet] at h1⟩
  refine ⟨?_, ?_, ?_⟩
  · have hmem : mockFrameworkImportPath ∈ sortStrings importPaths := by
      rw [sortStrings]
      exact (List.mem_insertionSort goStrLeRel).mpr hfw
    obtain ⟨L1, L2, hdecomp⟩ := List.append_of_mem hmem
    have hnd2 : (sortStrings importPaths).Nodup :=
      (List.perm_insertionSort goStrLeRel importPaths).nodup_iff.mpr hnd
    rw [hdecomp] at hnd2
    have hnotmem : mockFrameworkImportPath ∉ L2 :=
      (List.nodup_cons.mp (hnd2.of_append_right)).1
    simp only [generateUniquePackageNamesFor]
    rw [hdecomp, List.foldl_append, List.foldl_cons]
    rw [fold_packageMap_preserved L2 _ _ (fun q hq he => hnotmem (by rw [← he]; exact hq))]
    simp [processImportPath, mapGet_mapSet_self]
  · intro k v hget
    exact hinv.2.1 k v hget
  · intro k1 k2 v1 v2 h1 h2 hne hnf1 hnf2
    exact hinv.2.2 k1 k2 v1 v2 h1 h2 hne hnf1 hnf2

/-- Claim C2 counterexample: with the user path "a/pegomock" in the input set (it sorts
before the runtime-support path and its basename sanitizes to "pegomock"), the resolver
assigns the same alias "pegomock" to two different paths, refuting pairwise
distinctness as claimed. -/
theorem claim_C2_counterexample :
    ¬ (∀ k1 k2 v1 v2,
        mapGet (generateUniquePackageNamesFor
          ["a/pegomock", mockFrameworkImportPath]).1 k1 = some v1 →
        mapGet (generateUniquePackageNamesFor
          ["a/pegomock", mockFrameworkImportPath]).1 k2 = some v2 →
        k1 ≠ k2 → v1 ≠ v2) := by
  intro h
  exact h "a/pegomock" mockFrameworkImportPath "pegomock" "pegomock"
    (by decide) (by decide) (by decide) rfl

theorem claim_C2_witness :
    (["github.com/petergtz/pegomock/v4", "text/template", "html/template"] :
        List String).Nodup ∧
    mockFrameworkImportPath ∈
      ["github.com/petergtz/pegomock/v4", "text/template", "html/template"] ∧
    mapGet (generateUniquePackageNamesFor
      ["github.com/petergtz/pegomock/v4", "text/template", "html/template"]).1
      mockFrameworkImportPath = some "pegomock" :=
  ⟨by decide, by decide,
   (claim_C2_alias_resolution
     ["github.com/petergtz/pegomock/v4", "text/template", "html/template"]
     (by decide) (by decide)).1⟩

/-- Claim C7 (amended): the alias recorded in the full-path map and the alias recorded in
the vendor-stripped map agree on every import path that is lexicographically greatest
among the input paths sharing its vendor-stripped key — in particular on every path
when vendor-stripping collides on no two input paths; when two paths share a stripped
key, the stripped view keeps only the greatest path's alias (see
claim_C7_counterexample). -/
theorem claim_C7_vendor_views_agree (importPaths : List String) (p : String)
    (hnd : importPaths.Nodup) (hp : p ∈ importPaths)
    (hmax : ∀ q ∈ importPaths, vendorCleaned q = vendorCleaned p → goStrLe q p = true) :
    mapGet (generateUniquePackageNamesFor importPaths).2 (vendorCleaned p) =
      mapGet (generateUniquePackageNamesFor importPaths).1 p := by
  have hmem : p ∈ sortStrings importPaths := by
    rw [sortStrings]
    exact (List.mem_insertionSort goStrLeRel).mpr hp
  obtain ⟨L1, L2, hdecomp⟩ := List.append_of_mem hmem
  have hnd2 : (sortStrings importPaths).Nodup :=
    (List.perm_insertionSort goStrLeRel importPaths).nodup_iff.mpr hnd
  have hsorted : List.Sorted goStrLeRel (sortStrings importPaths) :=
    List.sorted_insertionSort goStrLeRel importPaths
  rw [hdecomp] at hnd2 hsorted
  have hnotmem : p ∉ L2 := (List.nodup_cons.mp (hnd2.of_append_right)).1
  have hrel : ∀ q ∈ L2, goStrLeRel p q :=
    (List.pairwise_cons.mp (List.pairwise_append.mp hsorted).2.1).1
  have hL2ne : ∀ q ∈ L2, q ≠ p := by
    intro q hq he
    exact hnotmem (he ▸ hq)
  have hL2clean : ∀ q ∈ L2, vendorCleaned q ≠ vendorCleaned p := by
    intro q hq he
    have hqin : q ∈ importPaths := by
      have : q ∈ sortStrings importPaths := by
        rw [hdecomp]
        exact List.mem_append_right _ (List.mem_cons_of_mem _ hq)
      rw [sortStrings] at this
      exact (List.mem_insertionSort goStrLeRel).mp this
    have hle1 : goStrLe q p = true := hmax q hqin he
    have hle2 : goStrLe p q = true := hrel q hq
    exact hL2ne q hq (goStrLe_antisymm hle1 hle2)
  simp only [generateUniquePackageNamesFor]
  rw [hdecomp, List.foldl_append, List.foldl_cons]
  rw [fold_nvm_preserved L2 _ _ hL2clean, fold_packageMap_preserved L2 _ _ hL2ne]
  simp [processImportPath, mapGet_mapSet_self]

/-- Claim C7 counterexample: with input paths "a/vendor/foo" and "foo" (which share the
vendor-stripped key "foo"), the full-path map assigns "a/vendor/foo" the alias "foo"
while the vendor-stripped map records "foo0" under its stripped key, so the two views
disagree for "a/vendor/foo". -/
theorem claim_C7_counterexample :
    mapGet (generateUniquePackageNamesFor ["a/vendor/foo", "foo"]).2
        (vendorCleaned "a/vendor/foo") ≠
      mapGet (generateUniquePackageNamesFor ["a/vendor/foo", "foo"]).1 "a/vendor/foo" := by
  decide

theorem claim_C7_witness :
    (["a/vendor/foo", "foo"] : List String).Nodup ∧
    "foo" ∈ ["a/vendor/foo", "foo"] ∧
    (∀ q ∈ ["a/vendor/foo", "foo"], vendorCleaned q = vendorCleaned "foo" →
      goStrLe q "foo" = true) ∧
    mapGet (generateUniquePackageNamesFor ["a/vendor/foo", "foo"]).2
        (vendorCleaned "foo") =
      mapGet (generateUniquePackageNamesFor ["a/vendor/foo", "foo"]).1 "foo" :=
  ⟨by decide, by decide, by decide,
   claim_C7_vendor_views_agree ["a/vendor/foo", "foo"] "foo" (by decide) (by decide)
     (by decide)⟩

theorem foldl_set_length {α : Type} (f : Nat → Option α) (L : List Nat) (init : List α) :
    (L.foldl (fun inner j => match f j with | some v => inner.set j v | none => inner)
      init).length = init.length := by
  induction L generalizing init with
  | nil => rfl
  | cons j rest ih =>
    rcases hf : f j with _ | v
    · simp only [List.foldl_cons, hf]
      exact ih init
    · simp only [List.foldl_cons, hf]
      rw [ih]
      simp

theorem foldl_set_getElem {α : Type} (f : Nat → Option α) :
    ∀ (n : Nat) (init : List α) (m : Nat) (w : α), init[m]? = some w →
      ((List.range n).foldl
        (fun inner j => match f j with | some v => inner.set j v | none => inner)
        init)[m]? = some (if m < n then (f m).getD w else w) := by
  intro n
  induction n with
  | zero =>
    intro init m w h
    simpa using h
  | succ n ih =>
    intro init m w h
    have hmlt : m < init.length := by
      by_contra hc
      push_neg at hc
      rw [List.getElem?_eq_none hc] at h
      cases h
    rw [List.range_succ, List.foldl_append, List.foldl_cons, List.foldl_nil]
    have hG := ih init m w h
    have hlen := foldl_set_length f (List.range n) init
    rcases hf : f n with _ | v
    · simp only [hf]
      rw [hG]
      congr 1
      by_cases hm : m < n
      · simp [hm, Nat.lt_succ_of_lt hm]
      · by_cases hm2 : m = n
        · subst hm2
          simp [hf, Nat.lt_succ_self, hm]
        · have hm3 : ¬ m < n + 1 := by omega
          simp [hm, hm3]
    · simp only [hf]
      rw [List.getElem?_set]
      by_cases hm2 : n = m
      · subst hm2
        rw [if_pos rfl, if_pos (by rw [hlen]; exact hmlt)]
        have : n < n + 1 := Nat.lt_succ_self n
        simp [this, hf]
      · rw [if_neg hm2, hG]
        congr 1
        have hm3 : m ≠ n := Ne.symm hm2
        by_cases hm : m < n
        · simp [hm, Nat.lt_succ_of_lt hm]
        · have hm4 : ¬ m < n + 1 := by omega
          simp [hm, hm4]

theorem foldl_set_replicate_eq_map {α : Type} (f : Nat → Option α) (n : Nat) (zero : α) :
    (List.range n).foldl
      (fun inner j => match f j with | some v => inner.set j v | none => inner)
      (List.replicate n zero) =
      (List.range n).map (fun j => (f j).getD zero) := by
  apply List.ext_getElem?
  intro m
  by_cases hm : m < n
  · have h1 := foldl_set_getElem f n (List.replicate n zero) m zero
      (by simp [List.getElem?_replicate, hm])
    rw [h1, if_pos hm, List.getElem?_map, List.getElem?_range hm]
    rfl
  · have hlen := foldl_set_length f (List.range n) (List.replicate n zero)
    have h2 : ¬ m < n := hm
    rw [List.getElem?_eq_none (by rw [hlen]; simpa using not_lt.mp h2),
      List.getElem?_eq_none (by simpa using not_lt.mp h2)]

theorem map_const_range {α : Type} (zero : α) :
    ∀ n : Nat, (List.range n).map (fun _ => zero) = List.replicate n zero := by
  intro n
  induction n with
  | zero => rfl
  | succ n ih =>
    rw [List.range_succ, List.map_append, ih, List.map_cons, List.map_nil,
      List.replicate_succ']

theorem rangeMap_getD_eq_append_replicate {α : Type} (zero : α) :
    ∀ (l : List α) (n : Nat), l.length ≤ n →
      (List.range n).map (fun j => (l[j]?).getD zero) =
        l ++ List.replicate (n - l.length) zero := by
  intro l
  induction l with
  | nil =>
    intro n h
    simp only [List.nil_append, List.length_nil, Nat.sub_zero]
    have h1 : (fun j => (([] : List α)[j]?).getD zero) = fun _ : Nat => zero := by
      funext j
      simp
    rw [h1, map_const_range]
  | cons a l ih =>
    intro n h
    cases n with
    | zero => simp at h
    | succ n =>
      rw [List.range_succ_eq_map, List.map_cons, List.map_map]
      have h0 : ((a :: l)[0]?).getD zero = a := by simp
      have h1 : (fun j => ((a :: l)[j]?).getD zero) ∘ Nat.succ =
          fun j => (l[j]?).getD zero := by
        funext j
        simp
      rw [h0, h1, ih n (by simpa using h)]
      simp

theorem length_le_maxVariadicArity {α : Type} {calls : List (GoCall α)} {c : GoCall α}
    (h : c ∈ calls) : c.variadic.length ≤ maxVariadicArity calls := by
  induction calls with
  | nil => cases h
  | cons d rest ih =>
    rcases List.mem_cons.mp h with h1 | h1
    · subst h1
      exact le_max_left _ _
    · exact le_trans (ih h1) (le_max_right _ _)

theorem cellAt_invocationMatrix {α : Type} (k : Nat) (calls : List (GoCall α))
    (hc : calls ≠ []) (j u : Nat) (hj : j < maxVariadicArity calls) (c : GoCall α)
    (hcu : calls[u]? = some c) :
    goCellAt (invocationMatrix k calls) (k + j) u = c.variadic[j]? := by
  rw [goCellAt, invocationMatrix, if_neg (by simpa [List.isEmpty_iff] using hc)]
  have hkj : k + j < k + maxVariadicArity calls := by omega
  rw [List.getD_eq_getElem?_getD, List.getD_eq_getElem?_getD, List.getElem?_map,
    List.getElem?_range hkj]
  simp only [Option.map_some', Option.getD_some]
  rw [List.getElem?_map, hcu]
  simp only [Option.map_some', Option.getD_some]
  rw [if_neg (by omega)]
  have hjj : k + j - k = j := by omega
  rw [hjj]

/-- Claim C3 (amended): for a method with k fixed parameters and a trailing variadic
parameter, and matched calls aggregated into the runtime matrix (modelled from the
spec), the emitted GetAllCapturedArguments reconstruction at the variadic index k
returns one inner sequence per matched invocation, populated only from the matrix
columns at or beyond index k, skipping nil cells — the inner sequence for call i holds
the variadic values passed on call i in order, PADDED WITH ZERO VALUES up to the
largest variadic arity among the aggregated calls (not exactly the values passed, see
claim_C3_counterexample); the hypothesis requires the matrix to have at least one
column, since with no columns at all the emitted guard leaves every result empty. -/
theorem claim_C3_variadic_capture {α : Type} (k : Nat) (calls : List (GoCall α))
    (zero : α) (hcols : 0 < k + maxVariadicArity calls) :
    emittedGetAllVariadicCapture (invocationMatrix k calls) calls.length k zero =
      calls.map (fun c =>
        c.variadic ++ List.replicate (maxVariadicArity calls - c.variadic.length) zero) := by
  by_cases hc : calls = []
  · subst hc
    simp [invocationMatrix, emittedGetAllVariadicCapture]
  · have hlen : (invocationMatrix k calls).length = k + maxVariadicArity calls := by
      simp [invocationMatrix, hc]
    rw [emittedGetAllVariadicCapture, if_pos (by rw [hlen]; omega)]
    rw [emittedVariadicParam]
    simp only [hlen, Nat.add_sub_cancel_left]
    apply List.ext_getElem?
    intro u
    rw [List.getElem?_map, List.getElem?_map]
    by_cases hu : u < calls.length
    · rw [List.getElem?_range hu]
      have hcu : calls[u]? = some (calls[u]) := List.getElem?_eq_getElem hu
      rw [hcu]
      simp only [Option.map_some']
      congr 1
      rw [foldl_set_replicate_eq_map (fun j => goCellAt (invocationMatrix k calls) (k + j) u)
        (maxVariadicArity calls) zero]
      rw [List.map_congr_left (fun j hj => by
        rw [cellAt_invocationMatrix k calls hc j u (List.mem_range.mp hj) (calls[u]) hcu])]
      exact rangeMap_getD_eq_append_replicate zero (calls[u]).variadic
        (maxVariadicArity calls) (length_le_maxVariadicArity (List.getElem_mem hu))
    · rw [List.getElem?_eq_none (by simpa using not_lt.mp hu),
        List.getElem?_eq_none (by simpa using not_lt.mp hu)]
      rfl

/-- Claim C3 counterexample: aggregating Push(1,2) and Push(3), the emitted
reconstruction returns [[1,2],[3,0]] — the inner slice for the second call is padded
with a zero value up to the larger arity and is NOT exactly the variadic values passed
on that call. -/
theorem claim_C3_counterexample :
    emittedGetAllVariadicCapture
        (invocationMatrix 0 [(⟨[], [1, 2]⟩ : GoCall Nat), ⟨[], [3]⟩]) 2 0 0 =
      [[1, 2], [3, 0]] ∧
    ([[1, 2], [3, 0]] : List (List Nat)) ≠
      ([(⟨[], [1, 2]⟩ : GoCall Nat), ⟨[], [3]⟩]).map (fun c => c.variadic) := by
  exact ⟨by decide, by decide⟩

theorem claim_C3_witness :
    0 < 0 + maxVariadicArity [(⟨[], [1, 2]⟩ : GoCall Nat), ⟨[], [3]⟩] ∧
    emittedGetAllVariadicCapture
        (invocationMatrix 0 [(⟨[], [1, 2]⟩ : GoCall Nat), ⟨[], [3]⟩])
        ([(⟨[], [1, 2]⟩ : GoCall Nat), ⟨[], [3]⟩]).length 0 0 =
      ([(⟨[], [1, 2]⟩ : GoCall Nat), ⟨[], [3]⟩]).map (fun c =>
        c.variadic ++
          List.replicate
            (maxVariadicArity [(⟨[], [1, 2]⟩ : GoCall Nat), ⟨[], [3]⟩] -
              c.variadic.length) 0) :=
  ⟨by decide,
   claim_C3_variadic_capture 0 [(⟨[], [1, 2]⟩ : GoCall Nat), ⟨[], [3]⟩] 0 (by decide)⟩

theorem mockTypeHeader_mem_generateMockForLines (pm : List (String × String))
    (name selfPackage : String) (i : Interface) (htp : i.typeParams = []) :
    ("type " ++ name ++ " struct \x7b") ∈ generateMockForLines pm i name selfPackage := by
  have htps : typeParamsStringFrom i.typeParams pm selfPackage true = "" := by
    rw [htp]; rfl
  have htpn : typeParamsStringFrom i.typeParams pm selfPackage false = "" := by
    rw [htp]; rfl
  simp only [generateMockForLines, htps, htpn]
  apply List.mem_append_left
  simp only [generateMockTypeLines, String.append_empty]
  exact List.mem_cons.mpr (Or.inr (List.mem_cons.mpr (Or.inl rfl)))

/-- Claim C10: a non-empty stand-in name override is used for every Interface in the
Package — with two interfaces the output declares the same mock struct type twice —
while an empty override synthesizes "Mock" prepended to each interface's name. -/
theorem claim_C10_name_override_shared (source pkgName selfPackage : String)
    (pkg : Package) (i1 i2 : Interface) (structName : String)
    (nvOrder : List (String × String)) (hif : pkg.interfaces = [i1, i2])
    (htp1 : i1.typeParams = []) (htp2 : i2.typeParams = []) (hsn : structName ≠ "") :
    2 ≤ List.count ("type " ++ structName ++ " struct \x7b")
        (generateCodeLines source pkg structName pkgName selfPackage nvOrder) ∧
    ("type Mock" ++ i1.name ++ " struct \x7b") ∈
      generateCodeLines source pkg "" pkgName selfPackage nvOrder ∧
    ("type Mock" ++ i2.name ++ " struct \x7b") ∈
      generateCodeLines source pkg "" pkgName selfPackage nvOrder := by
  have hM : ∀ nm : String, (if ("" : String) = "" then "Mock" ++ nm else "") =
      "Mock" ++ nm := fun nm => if_pos rfl
  refine ⟨?_, ?_, ?_⟩
  · unfold generateCodeLines
    rw [hif]
    simp only [List.map_cons, List.map_nil, if_neg hsn]
    rw [List.flatten_cons, List.flatten_cons, List.flatten_nil, List.append_nil]
    rw [List.count_append, List.count_append, List.count_append, List.count_append]
    have h1 := List.count_pos_iff.mpr
      (mockTypeHeader_mem_generateMockForLines
        (generateUniquePackageNamesFor (importPathsOf pkg)).1 structName selfPackage i1 htp1)
    have h2 := List.count_pos_iff.mpr
      (mockTypeHeader_mem_generateMockForLines
        (generateUniquePackageNamesFor (importPathsOf pkg)).1 structName selfPackage i2 htp2)
    omega
  · have hsplit : "type Mock" ++ i1.name ++ " struct \x7b" =
        "type " ++ ("Mock" ++ i1.name) ++ " struct \x7b" := by
      have h1 : ("type Mock" : String) = "type " ++ "Mock" := by decide
      rw [h1, String.append_assoc "type " "Mock" i1.name]
    have hmm1 : "type " ++ ("Mock" ++ i1.name) ++ " struct \x7b" ∈
        generateMockForLines (generateUniquePackageNamesFor (importPathsOf pkg)).1 i1
          (if ("" : String) = "" then "Mock" ++ i1.name else "") selfPackage := by
      rw [hM]
      exact mockTypeHeader_mem_generateMockForLines _ _ selfPackage i1 htp1
    unfold generateCodeLines
    rw [hif, List.map_cons, List.map_cons, List.map_nil, hsplit]
    refine List.mem_append_right _ ?_
    rw [List.flatten_cons, List.flatten_cons, List.flatten_nil, List.append_nil]
    exact List.mem_append_left _ hmm1
  · have hsplit : "type Mock" ++ i2.name ++ " struct \x7b" =
        "type " ++ ("Mock" ++ i2.name) ++ " struct \x7b" := by
      have h1 : ("type Mock" : String) = "type " ++ "Mock" := by decide
      rw [h1, String.append_assoc "type " "Mock" i2.name]
    have hmm2 : "type " ++ ("Mock" ++ i2.name) ++ " struct \x7b" ∈
        generateMockForLines (generateUniquePackageNamesFor (importPathsOf pkg)).1 i2
          (if ("" : String) = "" then "Mock" ++ i2.name else "") selfPackage := by
      rw [hM]
      exact mockTypeHeader_mem_generateMockForLines _ _ selfPackage i2 htp2
    unfold generateCodeLines
    rw [hif, List.map_cons, List.map_cons, List.map_nil, hsplit]
    refine List.mem_append_right _ ?_
    rw [List.flatten_cons, List.flatten_cons, List.flatten_nil, List.append_nil]
    exact List.mem_append_right _ hmm2

theorem claim_C10_witness :
    (⟨"p", [⟨"A", [], []⟩, ⟨"B", [], []⟩], []⟩ : Package).interfaces =
      [⟨"A", [], []⟩, ⟨"B", [], []⟩] ∧
    (⟨"A", [], []⟩ : Interface).typeParams = [] ∧
    (⟨"B", [], []⟩ : Interface).typeParams = [] ∧
    ("Foo" : String) ≠ "" ∧
    2 ≤ List.count ("type " ++ "Foo" ++ " struct \x7b")
        (generateCodeLines "s" ⟨"p", [⟨"A", [], []⟩, ⟨"B", [], []⟩], []⟩ "Foo" "out" ""
          []) :=
  ⟨rfl, rfl, rfl, by decide,
   (claim_C10_name_override_shared "s" "out" "" ⟨"p", [⟨"A", [], []⟩, ⟨"B", [], []⟩], []⟩
     ⟨"A", [], []⟩ ⟨"B", [], []⟩ "Foo" [] rfl rfl rfl (by decide)).1⟩

theorem takeWhile_append_of_all {α : Type} (p : α → Bool) (l1 l2 : List α)
    (h : ∀ x ∈ l1, p x = true) :
    (l1 ++ l2).takeWhile p = l1 ++ l2.takeWhile p := by
  induction l1 with
  | nil => simp
  | cons a rest ih =>
    have ha : p a = true := h a (List.mem_cons_self _ _)
    simp only [List.cons_append, List.takeWhile_cons, ha, if_true]
    rw [ih (fun x hx => h x (List.mem_cons_of_mem _ hx))]

theorem dropWhile_append_of_all {α : Type} (p : α → Bool) (l1 l2 : List α)
    (h : ∀ x ∈ l1, p x = true) :
    (l1 ++ l2).dropWhile p = l2.dropWhile p := by
  induction l1 with
  | nil => simp
  | cons a rest ih =>
    have ha : p a = true := h a (List.mem_cons_self _ _)
    simp only [List.cons_append, List.dropWhile_cons, ha, if_true]
    exact ih (fun x hx => h x (List.mem_cons_of_mem _ hx))

theorem sortImportsInLines_extract (five specs body : List String)
    (h5 : ∀ x ∈ five, (x != "import (") = true)
    (hS : ∀ x ∈ specs, (x != ")") = true) :
    sortImportsInLines (five ++ ("import (" :: (specs ++ (")" :: body)))) =
      five ++ ("import (" :: (sortSpecs specs ++ (")" :: body))) := by
  rw [sortImportsInLines]
  rw [takeWhile_append_of_all _ five _ h5, dropWhile_append_of_all _ five _ h5]
  have hfalse : (("import (" : String) != "import (") = false := by decide
  rw [List.takeWhile_cons, List.dropWhile_cons]
  simp only [hfalse, if_false, Bool.false_eq_true, List.append_nil]
  rw [takeWhile_append_of_all _ specs _ hS, dropWhile_append_of_all _ specs _ hS]
  have hp : ((")" : String) != ")") = false := by decide
  rw [List.takeWhile_cons, List.dropWhile_cons]
  simp [hp]

theorem sortSpecs_perm_invariant {l1 l2 : List String} (h : l1.Perm l2) :
    sortSpecs l1 = sortSpecs l2 :=
  @List.eq_of_perm_of_sorted String specLE _ (sortSpecs l1) (sortSpecs l2)
    ((List.perm_insertionSort specLE l1).trans
      (h.trans (List.perm_insertionSort specLE l2).symm))
    (List.sorted_insertionSort specLE l1) (List.sorted_insertionSort specLE l2)

theorem ne_of_length_ne {a b : String} (h : a.length ≠ b.length) : a ≠ b :=
  fun he => h (he ▸ rfl)

theorem append_ne_of_head {a b : String} (c d : Char) (as bs : List Char)
    (ha : a.data = c :: as) (hb : b.data = d :: bs) (hcd : c ≠ d) (t : String) :
    a ++ t ≠ b := by
  intro h
  have h2 := congrArg String.data h
  rw [String.data_append, ha, hb] at h2
  simp only [List.cons_append, List.cons.injEq] at h2
  exact hcd h2.1

theorem header_lines_ne_import (source pkgName : String) :
    ∀ x ∈ ["// Code generated by pegomock. DO NOT EDIT.", "// Source: " ++ source, "",
      "package " ++ pkgName, ""], (x != "import (") = true := by
  intro x hx
  fin_cases hx
  · decide
  · simp only [bne_iff_ne, ne_eq]
    exact append_ne_of_head '/' 'i' _ _ rfl rfl (by decide) source
  · decide
  · simp only [bne_iff_ne, ne_eq]
    exact append_ne_of_head 'p' 'i' _ _ rfl rfl (by decide) pkgName
  · decide

theorem importSpecLines_ne_paren (nvOrder : List (String × String))
    (selfPackage : String) (dotImports : List String) :
    ∀ x ∈ importSpecLines nvOrder selfPackage dotImports, (x != ")") = true := by
  intro x hx
  unfold importSpecLines at hx
  rcases List.mem_append.mp hx with hx1 | hx1
  · rcases List.mem_append.mp hx1 with hx2 | hx2
    · fin_cases hx2 <;> decide
    · obtain ⟨e, _, he2⟩ := List.mem_map.mp hx2
      subst he2
      simp only [bne_iff_ne, ne_eq]
      apply ne_of_length_ne
      simp only [String.length_append, quoteStr]
      have h1 : (")" : String).length = 1 := by decide
      have h2 : ("\"" : String).length = 1 := by decide
      have h3 : (" " : String).length = 1 := by decide
      omega
  · obtain ⟨p, _, hp2⟩ := List.mem_map.mp hx1
    subst hp2
    simp only [bne_iff_ne, ne_eq]
    apply ne_of_length_ne
    simp only [String.length_append, quoteStr]
    have h1 : (")" : String).length = 1 := by decide
    have h2 : ("\"" : String).length = 1 := by decide
    have h3 : (". " : String).length = 2 := by decide
    omega

theorem importSpecLines_perm (selfPackage : String) (dotImports : List String)
    {o1 o2 : List (String × String)} (h : o1.Perm o2) :
    (importSpecLines o1 selfPackage dotImports).Perm
      (importSpecLines o2 selfPackage dotImports) := by
  unfold importSpecLines
  exact ((h.filter _).map _).append_left _ |>.append_right _

/-- Claim C1: for any fixed structural input (Package model plus the four string inputs),
two runs of GenerateOutput produce identical output even though Go iterates the
nonVendorPackageMap in arbitrary order: after the mandatory formatting pass (which
canonicalizes the import block by import path), the output — import block and alias
assignment included — depends only on the sorted set of referenced module paths, never
on map-iteration order. -/
theorem claim_C1_deterministic_output (source : String) (pkg : Package)
    (nameOut packageOut selfPackage : String) (order1 order2 : List (String × String))
    (h1 : order1.Perm (generateUniquePackageNamesFor (importPathsOf pkg)).2)
    (h2 : order2.Perm (generateUniquePackageNamesFor (importPathsOf pkg)).2) :
    GenerateOutput goFormatSource source pkg nameOut packageOut selfPackage order1 =
      GenerateOutput goFormatSource source pkg nameOut packageOut selfPackage order2 := by
  have hperm : order1.Perm order2 := h1.trans h2.symm
  have hshape : ∀ order : List (String × String),
      generateCodeLines source pkg nameOut packageOut selfPackage order =
        ["// Code generated by pegomock. DO NOT EDIT.", "// Source: " ++ source, "",
          "package " ++ packageOut, ""] ++
          ("import (" ::
            (importSpecLines order selfPackage pkg.dotImports ++
              (")" ::
                (pkg.interfaces.map (fun iface =>
                  generateMockForLines
                    (generateUniquePackageNamesFor (importPathsOf pkg)).1 iface
                    (if nameOut = "" then "Mock" ++ iface.name else nameOut)
                    selfPackage)).flatten))) := by
    intro order
    simp [generateCodeLines, List.append_assoc]
  have hsort : sortImportsInLines
      (generateCodeLines source pkg nameOut packageOut selfPackage order1) =
      sortImportsInLines
        (generateCodeLines source pkg nameOut packageOut selfPackage order2) := by
    rw [hshape order1, hshape order2]
    rw [sortImportsInLines_extract _ _ _ (header_lines_ne_import source packageOut)
      (importSpecLines_ne_paren order1 selfPackage pkg.dotImports)]
    rw [sortImportsInLines_extract _ _ _ (header_lines_ne_import source packageOut)
      (importSpecLines_ne_paren order2 selfPackage pkg.dotImports)]
    rw [sortSpecs_perm_invariant (importSpecLines_perm selfPackage pkg.dotImports hperm)]
  simp [GenerateOutput, formattedOutput, goFormatSource, hsort]

theorem claim_C1_witness :
    ([(mockFrameworkImportPath, "pegomock")] : List (String × String)).Perm
      (generateUniquePackageNamesFor
        (importPathsOf ⟨"p", [⟨"Thing", [], []⟩], []⟩)).2 ∧
    GenerateOutput goFormatSource "thing.go" ⟨"p", [⟨"Thing", [], []⟩], []⟩ "" "foo" ""
        [(mockFrameworkImportPath, "pegomock")] =
      GenerateOutput goFormatSource "thing.go" ⟨"p", [⟨"Thing", [], []⟩], []⟩ "" "foo" ""
        [(mockFrameworkImportPath, "pegomock")] := by
  have hp : ([(mockFrameworkImportPath, "pegomock")] : List (String × String)).Perm
      (generateUniquePackageNamesFor
        (importPathsOf ⟨"p", [⟨"Thing", [], []⟩], []⟩)).2 := by
    have he : (generateUniquePackageNamesFor
        (importPathsOf ⟨"p", [⟨"Thing", [], []⟩], []⟩)).2 =
        [(mockFrameworkImportPath, "pegomock")] := by decide
    rw [he]
  exact ⟨hp, claim_C1_deterministic_output "thing.go" ⟨"p", [⟨"Thing", [], []⟩], []⟩ ""
    "foo" "" _ _ hp hp⟩
